import Mathlib

/-!
Verification of the WorldBuilder terrain generator (`WorldBuilder/worldmap.py`).

The Python source is shallowly embedded below: 2D fields become functions
`Pos → Rat` / `Pos → String`, the WFC solver's mutable grid becomes explicit
state passing, `np.random` draws become an explicit stream `rng : Nat → Rat`
consumed through a counter (one draw per `np.random.choice` call, resolved by
inverse-CDF search over the normalized weights, which is how the draw maps to
an index), the `list(set(...))` conversion in `propagate` becomes an ordering
oracle `ord : List String → List String` (a permutation chosen by the
interpreter's hash-dependent set iteration order), and `np.random.shuffle`
becomes a shuffle oracle.  Unbounded `while` loops take an explicit fuel
argument; the fuel needed is established by theorems, not assumed.
-/

namespace NeoCore

/-- Grid coordinate `(x, y)`, matching the `(x, y)` tuples of the source. -/
abbrev Pos := Int × Int

/-- Closed numeric interval, the shape of a tile's `elevation` and
`temperature` config entries (`{"min": _, "max": _}`). -/
structure NumRange where
  min : Rat
  max : Rat
deriving DecidableEq

/-- One entry of a tile's `conditional_rules` list:
`{"type": _, "required": [...], "min_count": _}`. -/
structure AdjRule where
  rtype : String
  required : List String
  min_count : Nat
deriving DecidableEq

/-- One record of the config's `tiles` list.  A `none` range models a tile
record without that key; an empty `conditional_rules` list models a record
without the `conditional_rules` key (the code only ever iterates the list). -/
structure TileCfg where
  name : String
  symbol : String
  elevation : Option NumRange
  temperature : Option NumRange
  conditional_rules : List AdjRule
deriving DecidableEq

/-- The config's `civilization_rules` block. -/
structure CivRules where
  min_distance : Rat
  required_resources : List String
deriving DecidableEq

/-- A parsed configuration file (the parts the generator reads).  The
`global_rules` smoothing radius only feeds the Gaussian blur, which is
abstracted into the `noise` parameter of `generate_continent` below. -/
structure Config where
  tiles : List TileCfg
  civilization_rules : CivRules
deriving DecidableEq

/-- A WFC grid cell: `{'possible': [...], 'collapsed': bool}`. -/
structure Cell where
  possible : List String
  collapsed : Bool
deriving DecidableEq

/-- State of a `TerrainWFC` solve: the cell grid, the propagation queue
(FIFO: pop at the head, append at the tail, like the source's `deque`),
the `backtrack_count` local of `generate`, and the RNG stream position. -/
structure WFCState where
  width : Int
  height : Int
  grid : Pos → Cell
  queue : List Pos
  btCount : Nat
  rngIdx : Nat

/-- Bounds test `0 <= x < width and 0 <= y < height` used throughout. -/
def inBounds (w h : Int) (p : Pos) : Bool :=
  0 ≤ p.1 && p.1 < w && 0 ≤ p.2 && p.2 < h

/-- The neighbor offsets `[(-1,0), (1,0), (0,-1), (0,1)]`, in source order. -/
def dirs : List Pos := [(-1, 0), (1, 0), (0, -1), (0, 1)]

/-- The four 4-connected neighbor coordinates of `p`, in source order. -/
def nbrs (p : Pos) : List Pos := dirs.map (fun d => (p.1 + d.1, p.2 + d.2))

/-- The in-bounds 4-connected neighbors of `p`, in source order. -/
def inBoundsNbrs (w h : Int) (p : Pos) : List Pos := (nbrs p).filter (inBounds w h)

/-- Row-major scan order `for y in range(height): for x in range(width)`,
with elements written `(x, y)` as in the source. -/
def allPositions (w h : Int) : List Pos :=
  (List.range h.toNat).flatMap (fun (y : Nat) =>
    (List.range w.toNat).map (fun (x : Nat) => ((x : Int), (y : Int))))

/-- Pointwise update of a field at one coordinate (an array store). -/
def upd {α : Type} (g : Pos → α) (p : Pos) (v : α) : Pos → α :=
  fun q => if q = p then v else g q

/-- Lookup in the name-keyed tile dict `{t['name']: t for t in tiles}`.
Python dict comprehension lets a later duplicate overwrite an earlier one,
hence the lookup scans from the right. -/
def findTile (tiles : List TileCfg) (n : String) : Option TileCfg :=
  tiles.reverse.find? (fun t => t.name == n)

/-- The key list of the tile dict (config tile names; claims use configs with
distinct tile names, for which this equals the dict's key order). -/
def tileNames (tiles : List TileCfg) : List String := tiles.map (fun t => t.name)

/-- `TerrainWFC.__init__`: every cell starts with
`possible = list(self.tiles.keys())`, `collapsed = False`, an empty
propagation queue, and `backtrack_count = 0` (a local of `generate`; kept in
the state here).  The RNG stream position is bookkeeping of the embedding:
the global numpy RNG survives a reset, so `__init__` does not touch it. -/
def wfc_init (tiles : List TileCfg) (w h : Int) (rngIdx : Nat) : WFCState :=
  { width := w
    height := h
    grid := fun _ => { possible := tileNames tiles, collapsed := false }
    queue := []
    btCount := 0
    rngIdx := rngIdx }

/-- The weight factor contributed by one range check of `collapse_cell`
(lines 172-184): multiply by `0.1` when the value lies outside the range;
a missing key (`'elevation' in tile_cfg` false) contributes nothing. -/
def rangePenalty (r? : Option NumRange) (v : Rat) : Rat :=
  match r? with
  | none => 1
  | some r => if v < r.min || r.max < v then 1 / 10 else 1

/-- The collapse weight of one tile at a cell (lines 167-186): base `1.0`
penalized for an out-of-range elevation and/or temperature.  The `none` tile
case is unreachable from `generate` (every `possible` entry is a configured
tile) and is given the base weight. -/
def collapse_weight (t? : Option TileCfg) (elev temp : Rat) : Rat :=
  match t? with
  | none => 1
  | some t => 1 * rangePenalty t.elevation elev * rangePenalty t.temperature temp

/-- The weight list of `collapse_cell`, one weight per `possible` entry. -/
def cellWeights (tiles : List TileCfg) (possible : List String) (elev temp : Rat) : List Rat :=
  possible.map (fun tn => collapse_weight (findTile tiles tn) elev temp)

/-- Inverse-CDF selection: the index `np.random.choice` yields when the
uniform draw is `u` and the normalized weights are the given list (first
index whose cumulative weight exceeds `u`; the last index when `u` falls
beyond the total, which cannot happen for `u < 1`). -/
def pick_index : List Rat → Rat → Nat
  | [], _ => 0
  | [_], _ => 0
  | w :: ws, u => if u < w then 0 else pick_index ws (u - w) + 1

/-- The tile `np.random.choice` draws in `collapse_cell`: index the cell's
`possible` by the inverse-CDF pick over the normalized weights. -/
def chosen_tile (tiles : List TileCfg) (elevF tempF : Pos → Rat) (rng : Nat → Rat)
    (s : WFCState) (p : Pos) : String :=
  (s.grid p).possible.getD
    (pick_index
      ((cellWeights tiles (s.grid p).possible (elevF p) (tempF p)).map
        (fun w => w / (cellWeights tiles (s.grid p).possible (elevF p) (tempF p)).sum))
      (rng s.rngIdx)) ""

/-- `TerrainWFC.collapse_cell` (lines 160-205): fail (`return False`,
modelled `none`) on an empty `possible` or a zero total weight; otherwise
draw `chosen_tile`, set `possible = [chosen]`, mark the cell collapsed, and
enqueue the in-bounds neighbors. -/
def collapse_cell (tiles : List TileCfg) (elevF tempF : Pos → Rat) (rng : Nat → Rat)
    (s : WFCState) (p : Pos) : Option WFCState :=
  if (s.grid p).possible.isEmpty then none
  else if (cellWeights tiles (s.grid p).possible (elevF p) (tempF p)).sum = 0 then none
  else
    some { s with
      grid := upd s.grid p
        { possible := [chosen_tile tiles elevF tempF rng s p], collapsed := true }
      queue := s.queue ++ inBoundsNbrs s.width s.height p
      rngIdx := s.rngIdx + 1 }

/-- One scan step of `get_min_entropy_cell`'s minimum tracking: replace the
candidate when the cell is uncollapsed and `entropy < min_entropy and
entropy > 0` (`min_entropy` starts at infinity, modelled by `none`). -/
def entScan (s : WFCState) (acc : Option (Nat × Pos)) (p : Pos) : Option (Nat × Pos) :=
  if (s.grid p).collapsed then acc
  else if (match acc with
      | none => true
      | some me => decide ((s.grid p).possible.length < me.1))
      && decide (0 < (s.grid p).possible.length) then
    some ((s.grid p).possible.length, p)
  else acc

/-- `TerrainWFC.get_min_entropy_cell` (lines 146-158): row-major scan for the
uncollapsed cell with the least positive entropy (ties keep the earlier). -/
def get_min_entropy_cell (s : WFCState) : Option Pos :=
  ((allPositions s.width s.height).foldl (entScan s) none).map (fun me => me.2)

/-- Whether tile `t` survives against the single collapsed neighbor tile
`nt` in `propagate`'s discard loop (lines 224-229): it is discarded when it
has a config entry with a rule of type `adjacent` whose `required` list does
not contain `nt`. -/
def tile_rules_ok (tiles : List TileCfg) (t nt : String) : Bool :=
  match findTile tiles t with
  | none => true
  | some cfg => cfg.conditional_rules.all (fun r => r.rtype != "adjacent" || r.required.contains nt)

/-- The tiles of the already-collapsed in-bounds neighbors of `p`
(`neighbor['possible'][0]`; collapsed cells always hold a singleton, the
`headD` default is never exercised from `generate`). -/
def collapsedNeighborTiles (s : WFCState) (p : Pos) : List String :=
  (inBoundsNbrs s.width s.height p).filterMap (fun q =>
    let n := s.grid q
    if n.collapsed then some (n.possible.headD "") else none)

/-- One iteration of `TerrainWFC.propagate`'s while loop (lines 209-240):
pop a coordinate; skip collapsed cells; otherwise rebuild
`valid_tiles = set(possible)` minus every tile some collapsed neighbor
categorically excludes, store `list(valid_tiles)` (the set's iteration order
is the oracle `ord`; the store happens even when nothing was removed), and
re-enqueue the in-bounds neighbors exactly when the set changed. -/
def propagate_step (tiles : List TileCfg) (ord : List String → List String)
    (s : WFCState) : WFCState :=
  match s.queue with
  | [] => s
  | p :: rest =>
    let c := s.grid p
    if c.collapsed then { s with queue := rest }
    else
      let nts := collapsedNeighborTiles s p
      let keep := fun t => nts.all (tile_rules_ok tiles t)
      let valid := c.possible.dedup.filter keep
      let changed := !(c.possible.all keep)
      { s with
        grid := upd s.grid p { possible := ord valid, collapsed := false }
        queue := rest ++ (if changed then inBoundsNbrs s.width s.height p else []) }

/-- Total count of remaining possibilities over the grid. -/
def totalPossible (s : WFCState) : Nat :=
  ((allPositions s.width s.height).map (fun p => (s.grid p).possible.length)).sum

/-- Termination measure for `propagate`: strictly decreases at every
iteration of the queue loop (see `c7_propagate_terminates`). -/
def pmeasure (s : WFCState) : Nat := 4 * totalPossible s + s.queue.length

/-- Fuelled iteration of `propagate_step`, stopping early on an empty queue. -/
def propagateN (tiles : List TileCfg) (ord : List String → List String) :
    Nat → WFCState → WFCState
  | 0, s => s
  | n + 1, s => if s.queue.isEmpty then s else propagateN tiles ord n (propagate_step tiles ord s)

/-- `TerrainWFC.propagate`: drain the queue.  `pmeasure` fuel suffices for a
full drain whenever the queue holds in-bounds coordinates (the only
coordinates the code ever enqueues); this is proved, not assumed. -/
def propagate (tiles : List TileCfg) (ord : List String → List String)
    (s : WFCState) : WFCState :=
  propagateN tiles ord (pmeasure s) s

/-- The solver's `backtrack_limit` (set to 3 in `__init__`). -/
def backtrack_limit : Nat := 3

/-- The `if not success` branch of `TerrainWFC.generate` (lines 256-263):
bump `backtrack_count`; only when it exceeds `backtrack_limit` reinitialize
the whole solver via `self.__init__` (which zeroes the counter and rebuilds
every cell as `possible = all tiles`); then re-enter the selection loop. -/
def generate_on_contradiction (tiles : List TileCfg) (s : WFCState) : WFCState :=
  if backtrack_limit < s.btCount + 1 then wfc_init tiles s.width s.height s.rngIdx
  else { s with btCount := s.btCount + 1 }

/-- The driver loop of `TerrainWFC.generate` (lines 247-265), with explicit
fuel (`none` = fuel exhausted before the loop exited). -/
def wfc_loop (tiles : List TileCfg) (elevF tempF : Pos → Rat) (rng : Nat → Rat)
    (ord : List String → List String) : Nat → WFCState → Option WFCState
  | 0, _ => none
  | fuel + 1, s =>
    match get_min_entropy_cell s with
    | none => some s
    | some p =>
      match collapse_cell tiles elevF tempF rng s p with
      | none => wfc_loop tiles elevF tempF rng ord fuel (generate_on_contradiction tiles s)
      | some s' => wfc_loop tiles elevF tempF rng ord fuel (propagate tiles ord s')

/-- `TerrainWFC.generate` up to (and excluding) the final map build: run the
driver loop from a fresh `__init__` state. -/
def wfc_generate (tiles : List TileCfg) (w h : Int) (elevF tempF : Pos → Rat)
    (rng : Nat → Rat) (ord : List String → List String) (fuel : Nat) : Option WFCState :=
  wfc_loop tiles elevF tempF rng ord fuel (wfc_init tiles w h 0)

/-- The final map build of `TerrainWFC.generate` (lines 268-274): a collapsed
cell with a nonempty `possible` contributes `possible[0]`; every other cell
contributes the default `'grass'`. -/
def build_final_terrain (s : WFCState) : Pos → String :=
  fun p =>
    if (s.grid p).collapsed && !(s.grid p).possible.isEmpty then
      (s.grid p).possible.headD "grass"
    else "grass"

/-!
The environmental filtering path `apply_dynamic_rules` /
`check_conditional_rules` / `check_adjacent` (lines 102-144).  Nothing in the
repository calls it: `generate` goes straight from `get_min_entropy_cell` to
`collapse_cell`.  Moreover it can raise when evaluated in the flow that
builds the solver (`WorldGenerator.apply_terrain_rules` sets `elevation`,
`temperature` and `humidity` on the solver but never `terrain`, so
`check_adjacent`'s `self.terrain` read raises `AttributeError`; and its
`requirements.get('min_count', 1)` is called on a list, which has no `get`).
Fallible evaluation is modelled with `Option`: `none` is a raise. -/

/-- `TerrainWFC.check_conditional_rules` as evaluable from
`apply_dynamic_rules` in the generate flow: rules of a type other than
`adjacent` are skipped; any rule of type `adjacent` reaches
`check_adjacent`, which raises there (no `terrain` attribute on the solver,
and `.get` on a list). -/
def check_conditional_rules (tile : TileCfg) : Option Bool :=
  if tile.conditional_rules.all (fun r => r.rtype != "adjacent") then some true else none

/-- The per-tile admissibility test of `apply_dynamic_rules` (lines 110-123):
a missing `elevation`/`temperature` key raises (`none`); an out-of-range
value drops the tile (`some false`); otherwise the conditional rules decide. -/
def dyn_filter_one (tiles : List TileCfg) (elev temp : Rat) (tn : String) : Option Bool :=
  match findTile tiles tn with
  | none => none
  | some t =>
    match t.elevation with
    | none => none
    | some er =>
      if !(er.min ≤ elev && elev ≤ er.max) then some false
      else
        match t.temperature with
        | none => none
        | some tr =>
          if !(tr.min ≤ temp && temp ≤ tr.max) then some false
          else check_conditional_rules t

/-- `TerrainWFC.apply_dynamic_rules` (lines 102-125): rebuild a cell's
`possible` keeping exactly the tiles whose elevation and temperature ranges
contain the cell's field values and whose conditional rules pass.  Defined
here because the specification names it; the solver never invokes it. -/
def apply_dynamic_rules (tiles : List TileCfg) (elevF tempF : Pos → Rat)
    (s : WFCState) (p : Pos) : Option (List String) :=
  (s.grid p).possible.foldr (fun tn acc =>
    match acc, dyn_filter_one tiles (elevF p) (tempF p) tn with
    | some l, some true => some (tn :: l)
    | some l, some false => some l
    | _, _ => none) (some [])

/-- Error type named by the specification's error taxonomy.  No constructor
of it is ever produced: the loader has no validation or raise path. -/
inductive ConfigError where
  | configurationError : String → ConfigError
deriving DecidableEq

/-- The attributes `WorldGenerator.load_config` stores. -/
structure LoadedWorldCfg where
  config : Config
  tiles : List (String × TileCfg)
  symbol_map : List (String × String)
deriving DecidableEq

/-- `WorldGenerator.load_config` (lines 15-20) on an already-parsed config:
two dict comprehensions and nothing else — no range check, no adjacency
reference check, no raise.  The `Except` result records the absence of any
error path: the function is total and always returns `ok`. -/
def load_config (cfg : Config) : Except ConfigError LoadedWorldCfg :=
  Except.ok
    { config := cfg
      tiles := cfg.tiles.map (fun t => (t.name, t))
      symbol_map := cfg.tiles.map (fun t => (t.name, t.symbol)) }

/-!
RiverGenerator (lines 278-361).
-/

/-- The two fields `RiverGenerator` owns and mutates. -/
structure RiverState where
  elevation : Pos → Rat
  terrain : Pos → String

/-- `RiverGenerator.find_sources` (lines 284-291): row-major scan collecting
`(x, y)` of every cell of the requested terrain type. -/
def find_sources (w h : Int) (terrain : Pos → String) (ttype : String) : List Pos :=
  (allPositions w h).filter (fun p => terrain p == ttype)

/-- `RiverGenerator.get_downhill_neighbors` (lines 293-304): in-bounds
4-neighbors of strictly lower elevation, in direction order. -/
def get_downhill_neighbors (w h : Int) (elev : Pos → Rat) (p : Pos) : List Pos :=
  (inBoundsNbrs w h p).filter (fun q => elev q < elev p)

/-- Python's `min(neighbors, key=...)`: the first element attaining the
minimal elevation. -/
def min_by_elev (elev : Pos → Rat) : List Pos → Option Pos
  | [] => none
  | p :: rest => some (rest.foldl (fun b q => if elev q < elev b then q else b) p)

/-- The while loop of `RiverGenerator.find_river_path` (lines 329-345), with
fuel.  Each iteration visits a fresh cell, so `w*h` fuel always suffices on
an in-bounds trace; the concrete uses below supply that much. -/
def find_river_path_loop (w h : Int) (elev : Pos → Rat) (terrain : Pos → String)
    (dest : String) : Nat → Pos → List Pos → List Pos → List Pos
  | 0, _, path, _ => path
  | fuel + 1, current, path, visited =>
    let cands := (get_downhill_neighbors w h elev current).filter (fun q => !(visited.contains q))
    match min_by_elev elev cands with
    | none => path
    | some nxt =>
      let path' := path ++ [nxt]
      if terrain nxt == dest then path'
      else find_river_path_loop w h elev terrain dest fuel nxt path' (nxt :: visited)

/-- `RiverGenerator.find_river_path` (lines 323-347): steepest descent from
`start`, never revisiting, stopping at a dead end or on reaching `dest`. -/
def find_river_path (w h : Int) (elev : Pos → Rat) (terrain : Pos → String)
    (fuel : Nat) (start : Pos) (dest : String) : List Pos :=
  find_river_path_loop w h elev terrain dest fuel start [start] [start]

/-- The per-cell body of `RiverGenerator.apply_river_erosion` (lines
351-361): scale the cell's elevation by `0.9`, relabel it `'river'`, then
scale each in-bounds 4-neighbor's elevation by `0.95`. -/
def erode_at (w h : Int) (st : RiverState) (p : Pos) : RiverState :=
  let e1 := upd st.elevation p (st.elevation p * (9 / 10))
  let t1 := upd st.terrain p "river"
  let e2 := (nbrs p).foldl (fun e q =>
    if inBounds w h q then upd e q (e q * (19 / 20)) else e) e1
  { elevation := e2, terrain := t1 }

/-- `RiverGenerator.apply_river_erosion` (lines 349-361): fold the per-cell
erosion over the path in order. -/
def apply_river_erosion (w h : Int) (st : RiverState) (path : List Pos) : RiverState :=
  path.foldl (erode_at w h) st

/-- `RiverGenerator.generate_rivers` (lines 306-321): shuffle the sources
(the shuffle is an oracle for the numpy global RNG), keep at most 5, trace a
path from each, and accept (record + erode) exactly the paths of length at
least `min_length`.  Later traces read the eroded fields of earlier ones. -/
def generate_rivers (w h : Int) (shuffle : List Pos → List Pos) (st : RiverState)
    (min_length : Nat) (water_source destination : String) :
    List (List Pos) × RiverState :=
  let sources := find_sources w h st.terrain water_source
  let selected := (shuffle sources).take 5
  selected.foldl (fun acc src =>
    let path := find_river_path w h acc.2.elevation acc.2.terrain ((w * h).toNat) src destination
    if min_length ≤ path.length then
      (acc.1 ++ [path], apply_river_erosion w h acc.2 path)
    else acc) ([], st)

/-!
CivilizationPlacer (lines 363-428).
-/

/-- The `search_radius = 3` Chebyshev box of `check_resources`, offsets in
`for dx in range(-3, 4): for dy in range(-3, 4)` order. -/
def offsetsBox : List Pos :=
  ((List.range 7).map (fun i => (i : Int) - 3)).flatMap (fun dx =>
    ((List.range 7).map (fun i => (i : Int) - 3)).map (fun dy => (dx, dy)))

/-- `CivilizationPlacer.check_resources` (lines 369-387): every required
resource tile occurs somewhere in the in-bounds part of the radius-3 box. -/
def check_resources (w h : Int) (terrain : Pos → String) (required : List String)
    (p : Pos) : Bool :=
  required.all (fun resource =>
    offsetsBox.any (fun d =>
      inBounds w h (p.1 + d.1, p.2 + d.2) && terrain (p.1 + d.1, p.2 + d.2) == resource))

/-- `CivilizationPlacer.check_distance_to_other_cities` (lines 389-397).
The source compares `sqrt(dx^2 + dy^2) < min_distance`; for a nonnegative
`min_distance` that is equivalent to the square comparison used here, which
keeps the arithmetic exact. -/
def check_distance_to_other_cities (min_distance : Rat) (p : Pos) (placed : List Pos) : Bool :=
  placed.all (fun c =>
    !((((p.1 - c.1) ^ 2 + (p.2 - c.2) ^ 2 : Int) : Rat) < min_distance ^ 2))

/-- `CivilizationPlacer.find_city_candidates` (lines 399-407): grass cells
passing the resource check, in row-major order. -/
def find_city_candidates (w h : Int) (terrain : Pos → String) (required : List String) :
    List Pos :=
  (allPositions w h).filter (fun p =>
    terrain p == "grass" && check_resources w h terrain required p)

/-- The placement loop of `CivilizationPlacer.place_cities` (lines 417-426):
greedily accept each candidate far enough from all accepted ones, relabel it
`'ancient_city'`, and stop once 3 are placed. -/
def place_cities_loop (min_distance : Rat) :
    List Pos → (Pos → String) → List Pos → (Pos → String) × List Pos
  | [], t, placed => (t, placed)
  | cand :: rest, t, placed =>
    if check_distance_to_other_cities min_distance cand placed then
      let t' := upd t cand "ancient_city"
      let placed' := placed ++ [cand]
      if 3 ≤ placed'.length then (t', placed')
      else place_cities_loop min_distance rest t' placed'
    else place_cities_loop min_distance rest t placed

/-- `CivilizationPlacer.place_cities` (lines 409-428): shuffle the
candidates (numpy RNG oracle) and run the greedy loop. -/
def place_cities (w h : Int) (civ : CivRules) (shuffle : List Pos → List Pos)
    (terrain : Pos → String) : (Pos → String) × List Pos :=
  place_cities_loop civ.min_distance
    (shuffle (find_city_candidates w h terrain civ.required_resources)) terrain []

/-!
WorldGenerator (lines 8-81).
-/

/-- The world state a `WorldGenerator` instance carries. -/
structure WState where
  width : Int
  height : Int
  elevation : Pos → Rat
  temperature : Pos → Rat
  humidity : Pos → Rat
  terrain : Pos → String
  rivers : List (List Pos)

/-- `WorldGenerator.initialize_world` (lines 22-28): zero fields and a
terrain uniformly `'ocean'`. -/
def initialize_world (w h : Int) : WState :=
  { width := w
    height := h
    elevation := fun _ => 0
    temperature := fun _ => 0
    humidity := fun _ => 0
    terrain := fun _ => "ocean"
    rivers := [] }

/-- `WorldGenerator.generate_continent` (lines 30-41): overwrite the
elevation field with the sinusoidal-basis landmass smoothed by a Gaussian
blur of radius `core_size`.  The real-valued formula (`sin`, `cos`,
`gaussian_filter`) is abstracted as the field parameter `noise`; the claims
about this method concern only which state components it writes. -/
def generate_continent (noise : Pos → Rat) (s : WState) : WState :=
  { s with elevation := noise }

/-- `WorldGenerator.calculate_climate` (lines 43-50): temperature by the
lapse formula `30 - 0.6*elevation*1000/100`, humidity by
`clip(0.3 + 0.7*exp(-d/20), 0, 1)` where `d` is the Euclidean distance
transform of the mask `terrain != 'water'`.  The distance transform and the
exponential are abstracted as the parameters `edt` and `expf`; what matters
for the claims is which fields each formula reads. -/
def calculate_climate (edt : (Pos → Bool) → (Pos → Rat)) (expf : Rat → Rat)
    (s : WState) : WState :=
  let dist := edt (fun p => s.terrain p != "water")
  { s with
    temperature := fun p => 30 - (6 / 10) * s.elevation p * 1000 / 100
    humidity := fun p => min (max ((3 / 10) + (7 / 10) * expf (-(dist p) / 20)) 0) 1 }

/-- `WorldGenerator.apply_terrain_rules` (lines 52-58): run the WFC solver on
the current fields and replace the terrain with its output map. -/
def apply_terrain_rules (cfg : Config) (rng : Nat → Rat) (ord : List String → List String)
    (fuel : Nat) (s : WState) : Option WState :=
  match wfc_generate cfg.tiles s.width s.height s.elevation s.temperature rng ord fuel with
  | none => none
  | some wfcFinal => some { s with terrain := build_final_terrain wfcFinal }

/-- `WorldGenerator.generate_rivers` (lines 60-67): rivers from `'mountain'`
sources to `'water'` with `min_length = 5`, mutating elevation and terrain. -/
def world_generate_rivers (shuffle : List Pos → List Pos) (s : WState) : WState :=
  let res := generate_rivers s.width s.height shuffle
    { elevation := s.elevation, terrain := s.terrain } 5 "mountain" "water"
  { s with elevation := res.2.elevation, terrain := res.2.terrain, rivers := res.1 }

/-- `WorldGenerator.add_civilizations` (lines 69-72): place up to 3 cities on
the terrain. -/
def add_civilizations (cfg : Config) (shuffle : List Pos → List Pos) (s : WState) : WState :=
  { s with terrain := (place_cities s.width s.height cfg.civilization_rules shuffle s.terrain).1 }

/-- `WorldGenerator.generate_full_world` (lines 74-81): the five stages in
order.  `none` only when the WFC fuel runs out. -/
def generate_full_world (cfg : Config) (w h : Int) (noise : Pos → Rat)
    (edt : (Pos → Bool) → (Pos → Rat)) (expf : Rat → Rat) (rng : Nat → Rat)
    (ord : List String → List String) (shuffleR shuffleC : List Pos → List Pos)
    (fuel : Nat) : Option WState :=
  match apply_terrain_rules cfg rng ord fuel
      (calculate_climate edt expf (generate_continent noise (initialize_world w h))) with
  | none => none
  | some s3 => some (add_civilizations cfg shuffleC (world_generate_rivers shuffleR s3))

/-- The in-bounds rectangle of a terrain field as a row-major
list-of-rows, the first-order shape of the printed world map. -/
def render (w h : Int) (t : Pos → String) : List (List String) :=
  (List.range h.toNat).map (fun y => (List.range w.toNat).map (fun x => t ((x : Int), (y : Int))))

/-- The observable output of a full run: the dense terrain map and the river
path list (settlements appear in the map as `'ancient_city'` cells). -/
structure WorldOut where
  terrain : List (List String)
  rivers : List (List Pos)
deriving DecidableEq

/-- A full run projected to its observable output. -/
def world_out (cfg : Config) (w h : Int) (noise : Pos → Rat)
    (edt : (Pos → Bool) → (Pos → Rat)) (expf : Rat → Rat) (rng : Nat → Rat)
    (ord : List String → List String) (shuffleR shuffleC : List Pos → List Pos)
    (fuel : Nat) : Option WorldOut :=
  (generate_full_world cfg w h noise edt expf rng ord shuffleR shuffleC fuel).map
    (fun s => { terrain := render w h s.terrain, rivers := s.rivers })

/-!
Concrete fixtures used by the closed theorems below.
-/

/-- The identity ordering oracle: one possible `list(set(...))` iteration
order. -/
def ord_id : List String → List String := fun l => l

/-- The reversing ordering oracle: another possible `list(set(...))`
iteration order (CPython's set order for strings varies with hash
randomization across interpreter runs). -/
def ord_rev : List String → List String := fun l => l.reverse

/-- A constant RNG stream. -/
def constRng (u : Rat) : Nat → Rat := fun _ => u

/-- Identity shuffle oracle. -/
def idShuffle : List Pos → List Pos := fun l => l

/-- A grass tile admitting elevations in `[0, 0.3]` and temperatures in
`[10, 35]`, with no adjacency rules. -/
def grassTile : TileCfg :=
  { name := "grass", symbol := "g"
    elevation := some { min := 0, max := 3 / 10 }
    temperature := some { min := 10, max := 35 }
    conditional_rules := [] }

/-- Constant elevation field of value 5 (far above `grassTile`'s range). -/
def elev5 : Pos → Rat := fun _ => 5

/-- Constant temperature field of value 30. -/
def temp30 : Pos → Rat := fun _ => 30

/-- Constant elevation field of value 0. -/
def zeroElev : Pos → Rat := fun _ => 0

/-- A tile with an empty elevation range (`min > max`) and an adjacency rule
naming a tile (`"lava"`) defined nowhere: the configuration the spec says the
loader must reject. -/
def badTile : TileCfg :=
  { name := "grass", symbol := "g"
    elevation := some { min := 1, max := 0 }
    temperature := some { min := 10, max := 35 }
    conditional_rules := [{ rtype := "adjacent", required := ["lava"], min_count := 1 }] }

/-- A configuration containing `badTile`. -/
def badConfig : Config :=
  { tiles := [badTile], civilization_rules := { min_distance := 8, required_resources := [] } }

/-- A grass tile with wide environmental ranges and an adjacency rule
requiring at least one `"water"` neighbor. -/
def grassAdjTile : TileCfg :=
  { name := "grass", symbol := "g"
    elevation := some { min := -1, max := 1 }
    temperature := some { min := 0, max := 50 }
    conditional_rules := [{ rtype := "adjacent", required := ["water"], min_count := 1 }] }

/-- A 1×1 solver state holding a contradiction: the single cell has an empty
`possible` and is not collapsed. -/
def contradictionState : WFCState :=
  { width := 1
    height := 1
    grid := fun _ => { possible := [], collapsed := false }
    queue := []
    btCount := 0
    rngIdx := 0 }

/-- Iterated application of the contradiction branch of `generate`: the state
after `n` consecutive failed collapses starting from a fresh 1×1 solver. -/
def contradiction_counter_sim (tiles : List TileCfg) : Nat → WFCState
  | 0 => wfc_init tiles 1 1 0
  | n + 1 => generate_on_contradiction tiles (contradiction_counter_sim tiles n)

/-- A distance-transform stand-in (constant zero). -/
def edtZero : (Pos → Bool) → (Pos → Rat) := fun _ _ => 0

/-- An exponential stand-in (constant one). -/
def expOne : Rat → Rat := fun _ => 1

/-- A noise stand-in (constant zero elevation). -/
def noiseZero : Pos → Rat := fun _ => 0

/-- A world state with all-ocean terrain (fresh 2×2 world). -/
def wsA : WState := initialize_world 2 2

/-- The same world with a different elevation field. -/
def wsB : WState := { initialize_world 2 2 with elevation := fun _ => 7 }

/-- Elevation field decreasing one unit per step to the right (`5 - x`). -/
def elevRow : Pos → Rat := fun p => ((5 - p.1 : Int) : Rat)

/-- A 6×1 terrain: a mountain at `(0,0)`, water at `(5,0)`, plain between. -/
def terrRow : Pos → String := fun p =>
  if p = ((5 : Int), (0 : Int)) then "water"
  else if p = ((0 : Int), (0 : Int)) then "mountain"
  else "plain"

/-- The river-generator state over that 6×1 strip. -/
def riverStRow : RiverState := { elevation := elevRow, terrain := terrRow }

/-- How many cells of `path` have `p` as an in-bounds 4-connected neighbor:
the number of times the bank-erosion factor `0.95` is applied to `p` during
`apply_river_erosion` over `path`. -/
def adjFactorCount (w h : Int) (p : Pos) (path : List Pos) : Nat :=
  (path.filter (fun q => (nbrs q).contains p && inBounds w h p)).length

/-- The same tile list with every adjacency rule's `min_count` replaced by
`k` (used to state that propagation never consults `min_count`). -/
def setMinCounts (k : Nat) (tiles : List TileCfg) : List TileCfg :=
  tiles.map (fun tc =>
    { tc with conditional_rules := tc.conditional_rules.map (fun r => { r with min_count := k }) })

/-- A water tile with wide ranges and no rules. -/
def waterTile : TileCfg :=
  { name := "water", symbol := "w"
    elevation := some { min := -1, max := 1 }
    temperature := some { min := 0, max := 50 }
    conditional_rules := [] }

/-- A rule-free tile named `A` with wide ranges. -/
def tileA : TileCfg :=
  { name := "A", symbol := "a"
    elevation := some { min := -1, max := 1 }
    temperature := some { min := 0, max := 50 }
    conditional_rules := [] }

/-- A rule-free tile named `B` with wide ranges. -/
def tileB : TileCfg :=
  { name := "B", symbol := "b"
    elevation := some { min := -1, max := 1 }
    temperature := some { min := 0, max := 50 }
    conditional_rules := [] }

/-- A three-tile configuration with no adjacency rules and trivial
civilization rules. -/
def cfgC8 : Config :=
  { tiles := [waterTile, tileA, tileB]
    civilization_rules := { min_distance := 8, required_resources := [] } }

/-- A 2×1 solver state: cell `(0,0)` collapsed to water, cell `(1,0)` open
with two candidates, the open cell queued for propagation. -/
def stepState : WFCState :=
  { width := 2
    height := 1
    grid := fun q =>
      if q = ((0 : Int), (0 : Int)) then { possible := ["water"], collapsed := true }
      else { possible := ["grass", "water"], collapsed := false }
    queue := [((1 : Int), (0 : Int))]
    btCount := 0
    rngIdx := 0 }

/-- Number of uncollapsed in-bounds cells (as an indicator sum over the scan
order): the quantity each successful loop iteration of `generate` lowers. -/
def uncollapsedCount (s : WFCState) : Nat :=
  ((allPositions s.width s.height).map (fun p => if (s.grid p).collapsed then 0 else 1)).sum

/-- Every collapsed cell holds exactly one tile — the solver invariant
behind the final map build. -/
def CollapsedInv (s : WFCState) : Prop :=
  ∀ p : Pos, (s.grid p).collapsed = true → ∃ t, (s.grid p).possible = [t]

/-- Two solver states that agree on everything except possibly the stored
ORDER of uncollapsed cells' candidate lists: equal dimensions, queue and
counters, equal collapsed flags, permutation-related `possible` lists, and
literally equal lists at collapsed cells (which hold singletons).  This is
the precise sense in which two executions that differ only in the
`list(set(...))` iteration order inside `propagate` stay aligned: the
candidate SETS coincide, but the stored order — the order the next weighted
draw indexes into — need not. -/
def OrdAligned (s s' : WFCState) : Prop :=
  s.width = s'.width ∧ s.height = s'.height ∧ s.queue = s'.queue
    ∧ s.btCount = s'.btCount ∧ s.rngIdx = s'.rngIdx
    ∧ ∀ p : Pos, (s.grid p).collapsed = (s'.grid p).collapsed
      ∧ (s.grid p).possible.Perm (s'.grid p).possible
      ∧ ((s.grid p).collapsed = true → (s.grid p).possible = (s'.grid p).possible)

/-!
Theorems settling the claims.
-/

/-- C10: `generate_continent` writes only the elevation field — terrain,
temperature, humidity and rivers are untouched; `initialize_world` fills the
terrain uniformly with `'ocean'`, which differs from `'water'`, so the
climate mask `terrain != 'water'` holds at every cell when `calculate_climate`
runs inside `generate_full_world`; and the humidity field computed by
`calculate_climate` depends only on the terrain, hence not on the generated
elevation: two states agreeing on terrain get identical humidity. -/
theorem c10_continent_frame_and_humidity_independence
    (noise : Pos → Rat) (edt : (Pos → Bool) → (Pos → Rat)) (expf : Rat → Rat)
    (w h : Int) (s s1 : WState) (hterr : s.terrain = s1.terrain) :
    ((generate_continent noise s).terrain = s.terrain
      ∧ (generate_continent noise s).temperature = s.temperature
      ∧ (generate_continent noise s).humidity = s.humidity
      ∧ (generate_continent noise s).rivers = s.rivers
      ∧ (generate_continent noise s).elevation = noise)
    ∧ (∀ p : Pos, (initialize_world w h).terrain p = "ocean")
    ∧ ("ocean" : String) ≠ "water"
    ∧ (∀ p : Pos, ((initialize_world w h).terrain p != "water") = true)
    ∧ (calculate_climate edt expf s).humidity = (calculate_climate edt expf s1).humidity := by
  refine ⟨⟨rfl, rfl, rfl, rfl, rfl⟩, fun p => rfl, by decide, fun p => rfl, ?_⟩
  simp only [calculate_climate]
  rw [hterr]

/-- Witness for `c10_continent_frame_and_humidity_independence`: two concrete
2×2 worlds sharing the all-ocean terrain but with different elevation fields
get identical humidity. -/
theorem c10_witness :
    (calculate_climate edtZero expOne wsA).humidity
      = (calculate_climate edtZero expOne wsB).humidity :=
  (c10_continent_frame_and_humidity_independence noiseZero edtZero expOne 2 2 wsA wsB rfl).2.2.2.2

/-- C2 counterexample: `badConfig` has a tile whose elevation range is empty
(`min = 1 > 0 = max`) and an adjacency rule naming `"lava"`, which no tile
defines — yet `load_config` succeeds on it, and world generation runs to
completion on it, contradicting the claim that such a configuration fails at
load time and generation does not start. -/
theorem c2_bad_config_loads_and_generates :
    (load_config badConfig).isOk = true
    ∧ badTile.elevation = some { min := 1, max := 0 }
    ∧ ¬((1 : Rat) ≤ 0)
    ∧ badTile.conditional_rules = [{ rtype := "adjacent", required := ["lava"], min_count := 1 }]
    ∧ (tileNames badConfig.tiles).contains "lava" = false
    ∧ (wfc_generate badConfig.tiles 1 1 zeroElev temp30 (constRng (1 / 10)) ord_id 2).isSome
        = true := by
  refine ⟨rfl, rfl, by norm_num, rfl, by decide, ?_⟩
  with_unfolding_all rfl

/-- C2 amended: `load_config` performs no validation at all — for every
parsed configuration, well-formed or not, it returns `ok` with the
name-keyed tile and symbol dictionaries, so loading never fails and
generation always starts. -/
theorem c2_load_config_never_rejects :
    ∀ cfg : Config,
      (load_config cfg).isOk = true
      ∧ load_config cfg = Except.ok
          { config := cfg
            tiles := cfg.tiles.map (fun t => (t.name, t))
            symbol_map := cfg.tiles.map (fun t => (t.name, t.symbol)) } :=
  fun _ => ⟨rfl, rfl⟩

/-- C3 counterexample: at a concrete 1×1 state whose only cell has an empty
`possible`, `collapse_cell` signals a contradiction, yet the contradiction
branch of `generate` does not reinitialize the grid: it only bumps the
backtrack counter to 1, and the cell's `possible` stays empty instead of
returning to the full tile list as a reinitialization would make it. -/
theorem c3_first_contradiction_does_not_reset :
    collapse_cell [grassTile] elev5 temp30 (constRng (1 / 10)) contradictionState (0, 0) = none
    ∧ (generate_on_contradiction [grassTile] contradictionState).btCount = 1
    ∧ ((generate_on_contradiction [grassTile] contradictionState).grid (0, 0)).possible = []
    ∧ ((wfc_init [grassTile] 1 1 0).grid (0, 0)).possible = ["grass"] := by
  exact ⟨rfl, rfl, rfl, rfl⟩

/-- C3 amended: on a contradiction, `generate` only increments its backtrack
counter and retries selection; the grid is fully reinitialized (and the
counter zeroed) exactly when the counter exceeds `backtrack_limit = 3`, i.e.
on every 4th consecutive contradiction; the number of such resets is
unbounded (after `n` consecutive contradictions the counter reads `n % 4`,
for every `n`), and no reset ever makes the run give up — cells that never
collapse are defaulted only in the final map build. -/
theorem c3_reset_every_fourth_contradiction :
    (∀ (tiles : List TileCfg) (s : WFCState),
      generate_on_contradiction tiles s =
        if backtrack_limit < s.btCount + 1 then wfc_init tiles s.width s.height s.rngIdx
        else { s with btCount := s.btCount + 1 })
    ∧ (∀ (tiles : List TileCfg) (n : Nat),
        (contradiction_counter_sim tiles n).btCount = n % 4)
    ∧ (∀ (tiles : List TileCfg) (n : Nat), n % 4 = 3 →
        contradiction_counter_sim tiles (n + 1) = wfc_init tiles 1 1 0)
    ∧ (∀ (tiles : List TileCfg) (n : Nat), n % 4 ≠ 3 →
        (contradiction_counter_sim tiles (n + 1)).grid
          = (contradiction_counter_sim tiles n).grid) := by
  have hbt : ∀ (tiles : List TileCfg) (n : Nat),
      (contradiction_counter_sim tiles n).btCount = n % 4 := by
    intro tiles n
    induction n with
    | zero => rfl
    | succ m ih =>
      show (generate_on_contradiction tiles (contradiction_counter_sim tiles m)).btCount
        = (m + 1) % 4
      rw [generate_on_contradiction]
      rw [ih]
      by_cases hm : m % 4 = 3
      · rw [hm]
        norm_num [backtrack_limit, wfc_init]
        omega
      · have h1 : ¬ backtrack_limit < m % 4 + 1 := by
          simp only [backtrack_limit]
          omega
        rw [if_neg h1]
        simp only []
        omega
  have hdims : ∀ (tiles : List TileCfg) (n : Nat),
      (contradiction_counter_sim tiles n).width = 1
      ∧ (contradiction_counter_sim tiles n).height = 1
      ∧ (contradiction_counter_sim tiles n).rngIdx = 0 := by
    intro tiles n
    induction n with
    | zero => exact ⟨rfl, rfl, rfl⟩
    | succ m ih =>
      simp only [contradiction_counter_sim, generate_on_contradiction]
      by_cases hc : backtrack_limit < (contradiction_counter_sim tiles m).btCount + 1
      · rw [if_pos hc]
        exact ⟨ih.1, ih.2.1, ih.2.2⟩
      · rw [if_neg hc]
        exact ⟨ih.1, ih.2.1, ih.2.2⟩
  refine ⟨fun tiles s => rfl, hbt, ?_, ?_⟩
  · intro tiles n hn
    show generate_on_contradiction tiles (contradiction_counter_sim tiles n) = _
    rw [generate_on_contradiction]
    have h1 : backtrack_limit < (contradiction_counter_sim tiles n).btCount + 1 := by
      rw [hbt, hn]
      simp [backtrack_limit]
    rw [if_pos h1]
    rw [(hdims tiles n).1, (hdims tiles n).2.1, (hdims tiles n).2.2]
  · intro tiles n hn
    show (generate_on_contradiction tiles (contradiction_counter_sim tiles n)).grid = _
    rw [generate_on_contradiction]
    have h1 : ¬ backtrack_limit < (contradiction_counter_sim tiles n).btCount + 1 := by
      rw [hbt]
      simp only [backtrack_limit]
      omega
    rw [if_neg h1]

/-- Witness for `c3_reset_every_fourth_contradiction`: after 3 consecutive
contradictions no reset has happened (counter reads 3), and the 4th one
reinitializes the solver. -/
theorem c3_reset_witness :
    (contradiction_counter_sim [grassTile] 3).btCount = 3 % 4
    ∧ contradiction_counter_sim [grassTile] 4 = wfc_init [grassTile] 1 1 0 :=
  ⟨c3_reset_every_fourth_contradiction.2.1 [grassTile] 3,
    c3_reset_every_fourth_contradiction.2.2.1 [grassTile] 3 rfl⟩

/-- C1: evaluation of the code at the failing input.  On a 1×1 grid whose
single tile `grass` admits elevations in `[0, 0.3]`, with the cell's
elevation field reading 5 (and temperature 30, inside the range),
`generate` collapses the cell (it is not force-defaulted: `collapsed` is
true) and assigns `grass`, whose configured elevation range excludes the
cell's field value — the environmental filter `apply_dynamic_rules`, which
would have emptied the cell's possible set at this cell, is defined in the
source but never invoked by the solver, and `collapse_cell` only multiplies
the out-of-range tile's weight by 0.1, leaving it selectable. -/
theorem c1_out_of_range_tile_assigned :
    (wfc_generate [grassTile] 1 1 elev5 temp30 (constRng (1 / 10)) ord_id 3).map
        (fun s => ((s.grid (0, 0)).possible, (s.grid (0, 0)).collapsed,
          build_final_terrain s (0, 0)))
      = some (["grass"], true, "grass")
    ∧ grassTile.elevation = some { min := 0, max := 3 / 10 }
    ∧ elev5 (0, 0) = 5
    ∧ ¬((5 : Rat) ≤ 3 / 10)
    ∧ cellWeights [grassTile] ["grass"] (elev5 (0, 0)) (temp30 (0, 0)) = [1 * (1 / 10) * 1]
    ∧ apply_dynamic_rules [grassTile] elev5 temp30 (wfc_init [grassTile] 1 1 0) (0, 0)
        = some [] := by
  refine ⟨?_, rfl, rfl, by norm_num, ?_, ?_⟩
  · with_unfolding_all rfl
  · with_unfolding_all rfl
  · with_unfolding_all rfl

/-- A coordinate is never its own 4-neighbor. -/
theorem not_mem_nbrs_self (p : Pos) : p ∉ nbrs p := by
  intro hmem
  simp only [nbrs, dirs, List.map_cons, List.map_nil, List.mem_cons, List.not_mem_nil,
    or_false, Prod.ext_iff] at hmem
  omega

/-- The four 4-neighbors of a coordinate are pairwise distinct. -/
theorem nbrs_nodup (q : Pos) : (nbrs q).Nodup := by
  simp only [nbrs, dirs, List.map_cons, List.map_nil]
  refine List.nodup_cons.mpr ⟨?_, List.nodup_cons.mpr ⟨?_, List.nodup_cons.mpr ⟨?_,
    List.nodup_singleton _⟩⟩⟩ <;>
    · intro hmem
      simp only [List.mem_cons, List.not_mem_nil, or_false, Prod.ext_iff] at hmem
      omega

/-- Bridge between the boolean `contains` and list membership. -/
theorem contains_eq_true_iff {l : List Pos} {p : Pos} : l.contains p = true ↔ p ∈ l :=
  List.elem_iff

/-- Counting matches of `r == p && c r` in a duplicate-free list: one when
`p` is a member satisfying `c`, zero otherwise. -/
theorem countP_beq_and_of_nodup (l : List Pos) (hl : l.Nodup) (p : Pos) (c : Pos → Bool) :
    l.countP (fun r => r == p && c r) = if p ∈ l ∧ c p = true then 1 else 0 := by
  induction l with
  | nil => simp
  | cons a rest ih =>
    rw [List.countP_cons]
    rcases List.nodup_cons.mp hl with ⟨ha, hrest⟩
    by_cases hap : a = p
    · subst hap
      have hz : rest.countP (fun r => r == a && c r) = 0 := by
        rw [List.countP_eq_zero]
        intro r hr
        simp only [Bool.and_eq_true, beq_iff_eq, not_and]
        intro hra
        exact absurd (hra ▸ hr) ha
      rw [hz]
      cases hca : c a <;> simp [hca]
    · have hf : (a == p && c a) = false := by simp [hap]
      rw [hf, ih hrest]
      have hpa : ¬ p = a := fun hh => hap hh.symm
      simp [List.mem_cons, hpa]

/-- Evaluating the bank-erosion fold of `erode_at` at one coordinate:
each in-bounds list entry equal to `p` contributes one factor `19/20`. -/
theorem bank_fold_eval (w h : Int) (L : List Pos) (e : Pos → Rat) (p : Pos) :
    (L.foldl (fun e q => if inBounds w h q then upd e q (e q * (19 / 20)) else e) e) p
      = e p * (19 / 20 : Rat) ^ (L.countP (fun q => q == p && inBounds w h q)) := by
  induction L generalizing e with
  | nil => simp
  | cons q rest ih =>
    rw [List.foldl_cons, List.countP_cons]
    by_cases hb : inBounds w h q
    · rw [if_pos hb, ih]
      by_cases hq : q = p
      · subst hq
        have hcond : (q == q && inBounds w h q) = true := by simp [hb]
        rw [hcond, if_pos rfl]
        have hupd : upd e q (e q * (19 / 20)) q = e q * (19 / 20) := by simp [upd]
        rw [hupd, pow_succ]
        ring
      · have hcond : (q == p && inBounds w h q) = false := by simp [hq]
        rw [hcond, if_neg Bool.false_ne_true]
        have hpq : ¬ p = q := fun hh => hq hh.symm
        have hupd : upd e q (e q * (19 / 20)) p = e p := by simp [upd, hpq]
        rw [hupd, Nat.add_zero]
    · rw [if_neg hb, ih]
      have hcond : (q == p && inBounds w h q) = false := by simp [hb]
      rw [hcond, if_neg Bool.false_ne_true, Nat.add_zero]

/-- Pointwise elevation effect of eroding one path cell `q`: factor `9/10`
exactly at `q`, factor `19/20` exactly at the in-bounds 4-neighbors of `q`. -/
theorem erode_at_elevation (w h : Int) (st : RiverState) (q p : Pos) :
    (erode_at w h st q).elevation p
      = st.elevation p * (if q = p then (9 / 10 : Rat) else 1)
        * (if ((nbrs q).contains p && inBounds w h p) then (19 / 20 : Rat) else 1) := by
  have hdef : (erode_at w h st q).elevation
      = (nbrs q).foldl (fun e r => if inBounds w h r then upd e r (e r * (19 / 20)) else e)
          (upd st.elevation q (st.elevation q * (9 / 10))) := rfl
  rw [hdef, bank_fold_eval]
  rw [countP_beq_and_of_nodup (nbrs q) (nbrs_nodup q) p (inBounds w h)]
  have hself : upd st.elevation q (st.elevation q * (9 / 10)) q
      = st.elevation q * (9 / 10) := by simp [upd]
  have hother : ∀ _ : ¬ q = p,
      upd st.elevation q (st.elevation q * (9 / 10)) p = st.elevation p := by
    intro hq
    have hpq : ¬ p = q := fun hh => hq hh.symm
    simp [upd, hpq]
  by_cases hmem : p ∈ nbrs q ∧ inBounds w h p = true
  · rw [if_pos hmem]
    have hcont : ((nbrs q).contains p && inBounds w h p) = true := by
      simp only [Bool.and_eq_true]
      exact ⟨contains_eq_true_iff.mpr hmem.1, hmem.2⟩
    rw [hcont, if_pos rfl]
    have hq : ¬ q = p := fun hh => not_mem_nbrs_self q (hh ▸ hmem.1)
    rw [hother hq, if_neg hq, pow_one]
    ring
  · rw [if_neg hmem]
    have hcont : ((nbrs q).contains p && inBounds w h p) = false := by
      rw [Bool.eq_false_iff]
      intro hc
      rw [Bool.and_eq_true] at hc
      exact hmem (And.intro (contains_eq_true_iff.mp hc.1) hc.2)
    rw [hcont, if_neg Bool.false_ne_true, pow_zero]
    by_cases hq : q = p
    · subst hq
      rw [hself, if_pos rfl]
    · rw [hother hq, if_neg hq]
      ring

/-- Pointwise terrain effect of eroding one path cell: the cell is relabeled
`'river'`, nothing else changes. -/
theorem erode_at_terrain (w h : Int) (st : RiverState) (q p : Pos) :
    (erode_at w h st q).terrain p = if p = q then "river" else st.terrain p := rfl

/-- C6 counterexample: on a 6×1 strip descending from a mountain at `(0,0)`
to water at `(5,0)`, `generate_rivers` accepts the traced path (length 6 ≥
min length 5) and erodes it — but the traversed cell `(1,0)`, whose
pre-erosion elevation is 4, ends at `4 * 0.9 * 0.95²` (once `0.9` as a path
cell and twice `0.95` as the bank neighbor of the adjacent path cells
`(0,0)` and `(2,0)`), not at `0.9 * 4` as the claim states. -/
theorem c6_path_cell_not_exactly_ninety_percent :
    (generate_rivers 6 1 idShuffle riverStRow 5 "mountain" "water").1
      = [[((0 : Int), (0 : Int)), (1, 0), (2, 0), (3, 0), (4, 0), (5, 0)]]
    ∧ riverStRow.elevation (1, 0) = 4
    ∧ (generate_rivers 6 1 idShuffle riverStRow 5 "mountain" "water").2.elevation (1, 0)
        = 4 * (9 / 10) * ((19 / 20) * (19 / 20))
    ∧ 4 * ((9 : Rat) / 10) * ((19 / 20) * (19 / 20)) ≠ (9 / 10) * 4
    ∧ (generate_rivers 6 1 idShuffle riverStRow 5 "mountain" "water").2.terrain (1, 0)
        = "river" := by
  refine ⟨?_, ?_, ?_, by norm_num, ?_⟩
  · with_unfolding_all rfl
  · with_unfolding_all rfl
  · with_unfolding_all rfl
  · with_unfolding_all rfl

/-- C6 amended: after `apply_river_erosion` over a path, a cell's stored
elevation equals its prior value times `0.9` once per occurrence in the path
times `0.95` once per path cell of which it is an in-bounds 4-neighbor (so
interior path cells end at `0.9 * 0.95²` of their prior value, not `0.9`);
and exactly the traversed cells are relabeled `'river'`. -/
theorem c6_erosion_characterization (w h : Int) (st : RiverState) (path : List Pos) (p : Pos) :
    (apply_river_erosion w h st path).elevation p
      = st.elevation p * (9 / 10 : Rat) ^ (path.count p)
        * (19 / 20 : Rat) ^ (adjFactorCount w h p path)
    ∧ (apply_river_erosion w h st path).terrain p
      = if p ∈ path then "river" else st.terrain p := by
  induction path generalizing st with
  | nil => simp [apply_river_erosion, adjFactorCount]
  | cons q rest ih =>
    have hfold : apply_river_erosion w h st (q :: rest)
        = apply_river_erosion w h (erode_at w h st q) rest := rfl
    constructor
    · rw [hfold, (ih (erode_at w h st q)).1, erode_at_elevation]
      rw [List.count_cons]
      have hadj : adjFactorCount w h p (q :: rest)
          = adjFactorCount w h p rest
            + if ((nbrs q).contains p && inBounds w h p) then 1 else 0 := by
        simp only [adjFactorCount, List.filter_cons]
        by_cases hc : ((nbrs q).contains p && inBounds w h p) = true
        · rw [if_pos hc, if_pos hc, List.length_cons]
        · rw [if_neg hc, if_neg hc, Nat.add_zero]
      rw [hadj]
      simp only [beq_iff_eq]
      by_cases hq : q = p
      · by_cases hc : ((nbrs q).contains p && inBounds w h p) = true
        · simp only [if_pos hq, if_pos hc, pow_succ]
          ring
        · simp only [if_pos hq, if_neg hc, Nat.add_zero, pow_succ]
          ring
      · by_cases hc : ((nbrs q).contains p && inBounds w h p) = true
        · simp only [if_neg hq, if_pos hc, Nat.add_zero, pow_succ]
          ring
        · simp only [if_neg hq, if_neg hc, Nat.add_zero]
          ring
    · rw [hfold, (ih (erode_at w h st q)).2]
      by_cases hr : p ∈ rest
      · rw [if_pos hr, if_pos (List.mem_cons.mpr (Or.inr hr))]
      · rw [if_neg hr, erode_at_terrain]
        by_cases hpq : p = q
        · rw [if_pos hpq, if_pos (List.mem_cons.mpr (Or.inl hpq))]
        · rw [if_neg hpq, if_neg (fun hmem => (List.mem_cons.mp hmem).elim hpq hr)]

/-- Unfolding of one propagation iteration at an uncollapsed queue head:
store the ordered filtered set and re-enqueue the neighbors exactly when a
tile was removed. -/
theorem propagate_step_uncollapsed (tiles : List TileCfg) (ord : List String → List String)
    (s : WFCState) (p : Pos) (rest : List Pos)
    (hq : s.queue = p :: rest) (hc : (s.grid p).collapsed = false) :
    propagate_step tiles ord s =
      { s with
        grid := upd s.grid p
          { possible := ord ((s.grid p).possible.dedup.filter
              (fun t => (collapsedNeighborTiles s p).all (tile_rules_ok tiles t)))
            collapsed := false }
        queue := rest ++
          (if !((s.grid p).possible.all
              (fun t => (collapsedNeighborTiles s p).all (tile_rules_ok tiles t))) then
            inBoundsNbrs s.width s.height p
          else []) } := by
  unfold propagate_step
  rw [hq]
  simp only [hc, Bool.false_eq_true, if_false]

/-- `findTile` commutes with the `min_count` replacement (names are kept). -/
theorem findTile_setMinCounts (k : Nat) (tiles : List TileCfg) (n : String) :
    findTile (setMinCounts k tiles) n
      = (findTile tiles n).map (fun tc =>
          { tc with conditional_rules :=
              tc.conditional_rules.map (fun r => { r with min_count := k }) }) := by
  unfold findTile setMinCounts
  rw [← List.map_reverse, List.find?_map]
  rfl

/-- C4 counterexample: on a 1×1 grid whose single tile `grass` declares the
adjacency rule `{required := ["water"], min_count := 1}`, `generate`
collapses the cell to `grass` (not defaulted, not a contradiction survivor),
yet the cell has zero 4-connected neighbors assigned a tile from the required
set — `0 < min_count`, violating the claimed invariant. -/
theorem c4_min_count_violated_in_final_map :
    (wfc_generate [grassAdjTile] 1 1 zeroElev temp30 (constRng (1 / 10)) ord_id 3).map
        (fun s => ((s.grid (0, 0)).collapsed, build_final_terrain s (0, 0)))
      = some (true, "grass")
    ∧ grassAdjTile.conditional_rules
        = [{ rtype := "adjacent", required := ["water"], min_count := 1 }]
    ∧ inBoundsNbrs 1 1 (0, 0) = []
    ∧ ((inBoundsNbrs 1 1 (0, 0)).filter (fun q =>
        (["water"] : List String).contains
          (((wfc_generate [grassAdjTile] 1 1 zeroElev temp30 (constRng (1 / 10)) ord_id 3).map
            (fun s => build_final_terrain s q)).getD ""))).length
        < 1 := by
  refine ⟨?_, rfl, ?_, ?_⟩
  · with_unfolding_all rfl
  · with_unfolding_all rfl
  · exact of_decide_eq_true (by with_unfolding_all rfl)

/-- C4 amended: during propagation a tile stays in an uncollapsed queued
cell's possible set exactly when every already-collapsed in-bounds neighbor's
tile belongs to the `required` list of each of the tile's `adjacent` rules —
a per-neighbor membership test in which `min_count` plays no part (replacing
every rule's `min_count` leaves the test unchanged); in particular nothing
enforces that a collapsed cell have `min_count` neighbors from the required
set. -/
theorem c4_propagate_removes_iff_neighbor_excluded
    (tiles : List TileCfg) (ord : List String → List String)
    (hord : ∀ l : List String, (ord l).Perm l)
    (s : WFCState) (p : Pos) (rest : List Pos)
    (hq : s.queue = p :: rest) (hc : (s.grid p).collapsed = false) :
    (∀ t : String,
      t ∈ ((propagate_step tiles ord s).grid p).possible ↔
        (t ∈ (s.grid p).possible
          ∧ ∀ nt ∈ collapsedNeighborTiles s p, tile_rules_ok tiles t nt = true))
    ∧ (∀ (k : Nat) (t nt : String),
        tile_rules_ok (setMinCounts k tiles) t nt = tile_rules_ok tiles t nt) := by
  constructor
  · intro t
    have hgrid : (propagate_step tiles ord s).grid p
        = { possible := ord ((s.grid p).possible.dedup.filter
              (fun t => (collapsedNeighborTiles s p).all (tile_rules_ok tiles t)))
            collapsed := false } := by
      rw [propagate_step_uncollapsed tiles ord s p rest hq hc]
      simp [upd]
    rw [hgrid]
    show t ∈ ord _ ↔ _
    rw [(hord _).mem_iff, List.mem_filter, List.mem_dedup, List.all_eq_true]
  · intro k t nt
    unfold tile_rules_ok
    rw [findTile_setMinCounts]
    cases hft : findTile tiles t with
    | none => rfl
    | some cfg =>
      show (cfg.conditional_rules.map (fun r => ({ r with min_count := k } : AdjRule))).all
          (fun r => r.rtype != "adjacent" || r.required.contains nt)
        = cfg.conditional_rules.all (fun r => r.rtype != "adjacent" || r.required.contains nt)
      rw [List.all_map]
      rfl

/-- Witness for `c4_propagate_removes_iff_neighbor_excluded` at a concrete
2×1 state with a collapsed water neighbor. -/
theorem c4_witness :
    ("grass" ∈ ((propagate_step [grassAdjTile, waterTile] ord_id stepState).grid (1, 0)).possible ↔
      ("grass" ∈ (stepState.grid (1, 0)).possible
        ∧ ∀ nt ∈ collapsedNeighborTiles stepState (1, 0),
            tile_rules_ok [grassAdjTile, waterTile] "grass" nt = true))
    ∧ tile_rules_ok (setMinCounts 7 [grassAdjTile, waterTile]) "grass" "water"
        = tile_rules_ok [grassAdjTile, waterTile] "grass" "water" :=
  ⟨(c4_propagate_removes_iff_neighbor_excluded [grassAdjTile, waterTile] ord_id
      (fun l => List.Perm.refl l) stepState (1, 0) [] rfl rfl).1 "grass",
    (c4_propagate_removes_iff_neighbor_excluded [grassAdjTile, waterTile] ord_id
      (fun l => List.Perm.refl l) stepState (1, 0) [] rfl rfl).2 7 "grass" "water"⟩

/-- Invariant carried by the minimum-entropy scan: any candidate the fold
returns was uncollapsed, had positive entropy equal to its `possible`
length, and came from the scanned list (or the initial accumulator). -/
theorem foldl_entScan_inv (s : WFCState) (l : List Pos) (acc : Option (Nat × Pos))
    (P : Pos → Prop) (hl : ∀ q ∈ l, P q)
    (hacc : ∀ me : Nat × Pos, acc = some me →
      (s.grid me.2).collapsed = false ∧ 0 < me.1
        ∧ me.1 = (s.grid me.2).possible.length ∧ P me.2) :
    ∀ me : Nat × Pos, l.foldl (entScan s) acc = some me →
      (s.grid me.2).collapsed = false ∧ 0 < me.1
        ∧ me.1 = (s.grid me.2).possible.length ∧ P me.2 := by
  induction l generalizing acc with
  | nil => exact hacc
  | cons a rest ih =>
    intro me h
    refine ih (entScan s acc a) (fun q hq => hl q (List.mem_cons.mpr (Or.inr hq))) ?_ me h
    intro me' h'
    unfold entScan at h'
    by_cases hcoll : (s.grid a).collapsed = true
    · rw [if_pos hcoll] at h'
      exact hacc me' h'
    · rw [if_neg hcoll] at h'
      cases acc with
      | none =>
        split at h'
        · cases h'
          rename_i hcond
          refine ⟨Bool.eq_false_iff.mpr hcoll, ?_, rfl, hl a (List.mem_cons_self a rest)⟩
          rw [Bool.and_eq_true] at hcond
          exact of_decide_eq_true hcond.2
        · cases h'
      | some me0 =>
        split at h'
        · cases h'
          rename_i hcond
          refine ⟨Bool.eq_false_iff.mpr hcoll, ?_, rfl, hl a (List.mem_cons_self a rest)⟩
          rw [Bool.and_eq_true] at hcond
          exact of_decide_eq_true hcond.2
        · exact hacc me' h'

/-- A coordinate returned by `get_min_entropy_cell` designates an in-bounds,
uncollapsed cell with a nonempty `possible` list. -/
theorem get_min_entropy_cell_spec (s : WFCState) (p : Pos)
    (h : get_min_entropy_cell s = some p) :
    (s.grid p).collapsed = false ∧ (s.grid p).possible ≠ []
      ∧ p ∈ allPositions s.width s.height := by
  unfold get_min_entropy_cell at h
  cases hfold : (allPositions s.width s.height).foldl (entScan s) none with
  | none =>
    rw [hfold] at h
    exact absurd h (by simp)
  | some me =>
    rw [hfold] at h
    have hp : me.2 = p := Option.some.inj h
    obtain ⟨h1, h2, h3, h4⟩ := foldl_entScan_inv s (allPositions s.width s.height) none
      (fun q => q ∈ allPositions s.width s.height) (fun q hq => hq)
      (fun me' h' => by cases h') me hfold
    subst hp
    refine ⟨h1, ?_, h4⟩
    intro hnil
    rw [hnil] at h3
    simp at h3
    omega

/-- The range penalty of `collapse_cell` is either `1` or `1/10`. -/
theorem rangePenalty_cases (r? : Option NumRange) (v : Rat) :
    rangePenalty r? v = 1 ∨ rangePenalty r? v = 1 / 10 := by
  unfold rangePenalty
  cases r? with
  | none => exact Or.inl rfl
  | some r =>
    by_cases hc : (v < r.min || r.max < v) = true
    · exact Or.inr (if_pos hc)
    · exact Or.inl (if_neg hc)

/-- Every collapse weight is at least `1/100 = 0.01` (base `1` hit by at
most two `0.1` penalties). -/
theorem collapse_weight_ge (t? : Option TileCfg) (e t : Rat) :
    1 / 100 ≤ collapse_weight t? e t := by
  unfold collapse_weight
  cases t? with
  | none => norm_num
  | some tc =>
    show 1 / 100 ≤ 1 * rangePenalty tc.elevation e * rangePenalty tc.temperature t
    rcases rangePenalty_cases tc.elevation e with h1 | h1 <;>
      rcases rangePenalty_cases tc.temperature t with h2 | h2 <;>
        rw [h1, h2] <;> norm_num

/-- Every entry of a collapse weight list is at least `1/100`. -/
theorem cellWeights_ge (tiles : List TileCfg) (possible : List String) (e t : Rat) :
    ∀ x ∈ cellWeights tiles possible e t, 1 / 100 ≤ x := by
  intro x hx
  unfold cellWeights at hx
  rcases List.mem_map.mp hx with ⟨tn, -, rfl⟩
  exact collapse_weight_ge _ _ _

/-- A nonempty list of rationals all at least `1/100` has positive sum. -/
theorem sum_pos_of_ge_centiweight (l : List Rat) (hl : ∀ x ∈ l, 1 / 100 ≤ x)
    (hne : l ≠ []) : 0 < l.sum := by
  cases l with
  | nil => exact absurd rfl hne
  | cons a rest =>
    rw [List.sum_cons]
    have ha : 1 / 100 ≤ a := hl a (List.mem_cons_self a rest)
    have hrest : 0 ≤ rest.sum := by
      apply List.sum_nonneg
      intro x hx
      have := hl x (List.mem_cons.mpr (Or.inr hx))
      linarith
    linarith

/-- `collapse_cell` succeeds on any cell with a nonempty `possible` list. -/
theorem collapse_cell_isSome (tiles : List TileCfg) (elevF tempF : Pos → Rat)
    (rng : Nat → Rat) (s : WFCState) (p : Pos)
    (hne : (s.grid p).possible ≠ []) :
    collapse_cell tiles elevF tempF rng s p ≠ none := by
  unfold collapse_cell
  have hempty : (s.grid p).possible.isEmpty = false := List.isEmpty_eq_false.mpr hne
  rw [hempty]
  simp only [Bool.false_eq_true, if_false]
  have hwne : cellWeights tiles (s.grid p).possible (elevF p) (tempF p) ≠ [] := by
    unfold cellWeights
    intro hmap
    exact hne (List.map_eq_nil_iff.mp hmap)
  have hpos : 0 < (cellWeights tiles (s.grid p).possible (elevF p) (tempF p)).sum :=
    sum_pos_of_ge_centiweight _ (cellWeights_ge tiles _ _ _) hwne
  rw [if_neg (fun hz => absurd (hz ▸ hpos) (lt_irrefl 0))]
  exact Option.some_ne_none _

/-- C9: a coordinate returned by `get_min_entropy_cell` is an uncollapsed
cell with a nonempty `possible` list; every collapse weight is at least
`0.01`, so the cell's total weight is positive; hence `collapse_cell` cannot
return failure on a cell selected by the `generate` loop, and the
contradiction/reset branch of the loop is unreachable. -/
theorem c9_collapse_never_fails_from_selection
    (tiles : List TileCfg) (elevF tempF : Pos → Rat) (rng : Nat → Rat)
    (s : WFCState) (p : Pos) (h : get_min_entropy_cell s = some p) :
    ((s.grid p).collapsed = false ∧ (s.grid p).possible ≠ [])
    ∧ (∀ (t? : Option TileCfg) (e t : Rat), 1 / 100 ≤ collapse_weight t? e t)
    ∧ 0 < (cellWeights tiles (s.grid p).possible (elevF p) (tempF p)).sum
    ∧ collapse_cell tiles elevF tempF rng s p ≠ none := by
  obtain ⟨h1, h2, -⟩ := get_min_entropy_cell_spec s p h
  refine ⟨⟨h1, h2⟩, fun t? e t => collapse_weight_ge t? e t, ?_, ?_⟩
  · refine sum_pos_of_ge_centiweight _ (cellWeights_ge tiles _ _ _) ?_
    unfold cellWeights
    intro hmap
    exact h2 (List.map_eq_nil_iff.mp hmap)
  · exact collapse_cell_isSome tiles elevF tempF rng s p h2

/-- Witness for `c9_collapse_never_fails_from_selection` on a fresh 1×1
solver over the single-tile configuration. -/
theorem c9_witness :
    get_min_entropy_cell (wfc_init [grassTile] 1 1 0) = some (0, 0)
    ∧ ((((wfc_init [grassTile] 1 1 0).grid (0, 0)).collapsed = false
        ∧ ((wfc_init [grassTile] 1 1 0).grid (0, 0)).possible ≠ [])
      ∧ (∀ (t? : Option TileCfg) (e t : Rat), 1 / 100 ≤ collapse_weight t? e t)
      ∧ 0 < (cellWeights [grassTile] ((wfc_init [grassTile] 1 1 0).grid (0, 0)).possible
          (elev5 (0, 0)) (temp30 (0, 0))).sum
      ∧ collapse_cell [grassTile] elev5 temp30 (constRng (1 / 10))
          (wfc_init [grassTile] 1 1 0) (0, 0) ≠ none) := by
  have hmin : get_min_entropy_cell (wfc_init [grassTile] 1 1 0) = some (0, 0) := by
    with_unfolding_all rfl
  exact ⟨hmin, c9_collapse_never_fails_from_selection [grassTile] elev5 temp30
    (constRng (1 / 10)) (wfc_init [grassTile] 1 1 0) (0, 0) hmin⟩

/-- Evaluating a field update at the updated coordinate. -/
theorem upd_self {α : Type} (g : Pos → α) (p : Pos) (v : α) : upd g p v p = v := by
  simp [upd]

/-- Evaluating a field update elsewhere. -/
theorem upd_other {α : Type} (g : Pos → α) (p v q) (h : ¬ q = p) : upd g p v q = g q := by
  simp [upd, h]

/-- Membership in the scan order is exactly the bounds test. -/
theorem mem_allPositions (w h : Int) (p : Pos) :
    p ∈ allPositions w h ↔ inBounds w h p = true := by
  obtain ⟨px, py⟩ := p
  constructor
  · intro hmem
    obtain ⟨y, hy, hmem2⟩ := List.mem_flatMap.mp hmem
    obtain ⟨x, hx, heq⟩ := List.mem_map.mp hmem2
    rw [List.mem_range] at hy hx
    injection heq with h1 h2
    subst h1
    subst h2
    unfold inBounds
    simp only [Bool.and_eq_true, decide_eq_true_eq]
    refine ⟨⟨⟨?_, ?_⟩, ?_⟩, ?_⟩ <;> omega
  · intro hb
    unfold inBounds at hb
    simp only [Bool.and_eq_true, decide_eq_true_eq] at hb
    obtain ⟨⟨⟨h1, h2⟩, h3⟩, h4⟩ := hb
    refine List.mem_flatMap.mpr ⟨py.toNat, List.mem_range.mpr (by omega), ?_⟩
    refine List.mem_map.mpr ⟨px.toNat, List.mem_range.mpr (by omega), ?_⟩
    rw [Prod.mk.injEq]
    constructor <;> simp <;> omega

/-- A member of the in-bounds neighbor list is in bounds. -/
theorem mem_inBoundsNbrs_bounds {w h : Int} {p q : Pos}
    (hq : q ∈ inBoundsNbrs w h p) : inBounds w h q = true :=
  (List.mem_filter.mp hq).2

/-- The in-bounds neighbor list never exceeds four entries. -/
theorem inBoundsNbrs_length_le (w h : Int) (p : Pos) :
    (inBoundsNbrs w h p).length ≤ 4 :=
  le_trans (List.length_filter_le _ _) (by simp [nbrs, dirs])

/-- A popped collapsed coordinate is skipped: only the queue shrinks. -/
theorem propagate_step_collapsed (tiles : List TileCfg) (ord : List String → List String)
    (s : WFCState) (p : Pos) (rest : List Pos)
    (hq : s.queue = p :: rest) (hc : (s.grid p).collapsed = true) :
    propagate_step tiles ord s = { s with queue := rest } := by
  unfold propagate_step
  rw [hq]
  simp [hc]

/-- An empty queue makes `propagate_step` the identity. -/
theorem propagate_step_empty (tiles : List TileCfg) (ord : List String → List String)
    (s : WFCState) (hq : s.queue = []) : propagate_step tiles ord s = s := by
  unfold propagate_step
  rw [hq]

/-- One propagation iteration preserves the grid dimensions, the counters,
and every cell's collapsed flag. -/
theorem propagate_step_frame (tiles : List TileCfg) (ord : List String → List String)
    (s : WFCState) :
    (propagate_step tiles ord s).width = s.width
    ∧ (propagate_step tiles ord s).height = s.height
    ∧ (propagate_step tiles ord s).btCount = s.btCount
    ∧ (propagate_step tiles ord s).rngIdx = s.rngIdx
    ∧ ∀ q : Pos, ((propagate_step tiles ord s).grid q).collapsed = (s.grid q).collapsed := by
  rcases hq : s.queue with - | ⟨p, rest⟩
  · rw [propagate_step_empty tiles ord s hq]
    exact ⟨rfl, rfl, rfl, rfl, fun q => rfl⟩
  · by_cases hc : (s.grid p).collapsed = true
    · rw [propagate_step_collapsed tiles ord s p rest hq hc]
      exact ⟨rfl, rfl, rfl, rfl, fun q => rfl⟩
    · rw [propagate_step_uncollapsed tiles ord s p rest hq (Bool.eq_false_iff.mpr hc)]
      refine ⟨rfl, rfl, rfl, rfl, fun q => ?_⟩
      by_cases hqp : q = p
      · subst hqp
        simp [upd, Bool.eq_false_iff.mpr hc]
      · simp [upd, hqp]

/-- One propagation iteration only removes tiles from possible sets. -/
theorem propagate_step_possible_subset (tiles : List TileCfg)
    (ord : List String → List String) (hord : ∀ l, (ord l).Perm l)
    (s : WFCState) (q : Pos) :
    ∀ t, t ∈ ((propagate_step tiles ord s).grid q).possible → t ∈ (s.grid q).possible := by
  rcases hq : s.queue with - | ⟨p, rest⟩
  · rw [propagate_step_empty tiles ord s hq]
    exact fun t ht => ht
  · by_cases hc : (s.grid p).collapsed = true
    · rw [propagate_step_collapsed tiles ord s p rest hq hc]
      exact fun t ht => ht
    · rw [propagate_step_uncollapsed tiles ord s p rest hq (Bool.eq_false_iff.mpr hc)]
      intro t ht
      by_cases hqp : q = p
      · subst hqp
        simp only [upd, if_pos rfl] at ht
        have := (hord _).mem_iff.mp ht
        exact List.mem_dedup.mp (List.mem_filter.mp this).1
      · simpa [upd, hqp] using ht

/-- The measure is insensitive to the queue and counters stored alongside
the grid. -/
theorem totalPossible_set_queue (s : WFCState) (g : Pos → Cell) (Q : List Pos) :
    totalPossible { s with grid := g, queue := Q } = totalPossible { s with grid := g } := rfl

/-- The queue-loop measure strictly decreases on every iteration with a
nonempty in-bounds queue: a skipped collapsed cell only pops, a re-stored
cell's possible count never grows, and a shrink (the only case that
re-enqueues, adding at most four entries) drops the count by at least one. -/
theorem pmeasure_step_lt (tiles : List TileCfg) (ord : List String → List String)
    (hord : ∀ l, (ord l).Perm l) (s : WFCState) (p : Pos) (rest : List Pos)
    (hq : s.queue = p :: rest) (hp : inBounds s.width s.height p = true) :
    pmeasure (propagate_step tiles ord s) < pmeasure s := by
  have hmeas_s : pmeasure s = 4 * totalPossible s + s.queue.length := rfl
  have hql : s.queue.length = rest.length + 1 := by rw [hq, List.length_cons]
  by_cases hc : (s.grid p).collapsed = true
  · rw [propagate_step_collapsed tiles ord s p rest hq hc]
    have h1 : pmeasure { s with queue := rest } = 4 * totalPossible s + rest.length := rfl
    omega
  · have hcf : (s.grid p).collapsed = false := Bool.eq_false_iff.mpr hc
    rw [propagate_step_uncollapsed tiles ord s p rest hq hcf]
    have hlen_ord : ∀ l : List String, (ord l).length = l.length :=
      fun l => (hord l).length_eq
    have hfil_le : ((s.grid p).possible.dedup.filter
        (fun t => (collapsedNeighborTiles s p).all (tile_rules_ok tiles t))).length
        ≤ (s.grid p).possible.length :=
      le_trans (List.length_filter_le _ _) ((List.dedup_sublist _).length_le)
    have hmeas : pmeasure { s with
        grid := upd s.grid p
          { possible := ord ((s.grid p).possible.dedup.filter
              (fun t => (collapsedNeighborTiles s p).all (tile_rules_ok tiles t)))
            collapsed := false }
        queue := rest ++
          (if !((s.grid p).possible.all
              (fun t => (collapsedNeighborTiles s p).all (tile_rules_ok tiles t))) then
            inBoundsNbrs s.width s.height p
          else []) }
        = 4 * totalPossible { s with
            grid := upd s.grid p
              { possible := ord ((s.grid p).possible.dedup.filter
                  (fun t => (collapsedNeighborTiles s p).all (tile_rules_ok tiles t)))
                collapsed := false } }
          + (rest ++
            (if !((s.grid p).possible.all
                (fun t => (collapsedNeighborTiles s p).all (tile_rules_ok tiles t))) then
              inBoundsNbrs s.width s.height p
            else [])).length := rfl
    rw [hmeas, List.length_append]
    have hsum_le : totalPossible { s with
        grid := upd s.grid p
          { possible := ord ((s.grid p).possible.dedup.filter
              (fun t => (collapsedNeighborTiles s p).all (tile_rules_ok tiles t)))
            collapsed := false } } ≤ totalPossible s := by
      apply List.sum_le_sum
      intro q hq2
      dsimp only
      by_cases hqp : q = p
      · subst hqp
        rw [upd_self]
        exact le_trans (le_of_eq (hlen_ord _)) hfil_le
      · rw [upd_other _ _ _ _ hqp]
    by_cases hall : (s.grid p).possible.all
        (fun t => (collapsedNeighborTiles s p).all (tile_rules_ok tiles t)) = true
    · have hite0 : (if !((s.grid p).possible.all
          (fun t => (collapsedNeighborTiles s p).all (tile_rules_ok tiles t))) then
            inBoundsNbrs s.width s.height p
          else []) = [] := by
        rw [hall]
        simp
      rw [hite0]
      simp only [List.length_nil]
      omega
    · have hallf : (s.grid p).possible.all
          (fun t => (collapsedNeighborTiles s p).all (tile_rules_ok tiles t)) = false :=
        Bool.eq_false_iff.mpr hall
      obtain ⟨t0, ht0mem, ht0f⟩ := List.all_eq_false.mp hallf
      have hfil_lt : ((s.grid p).possible.dedup.filter
          (fun t => (collapsedNeighborTiles s p).all (tile_rules_ok tiles t))).length
          < (s.grid p).possible.dedup.length :=
        List.length_filter_lt_length_iff_exists.mpr ⟨t0, List.mem_dedup.mpr ht0mem, ht0f⟩
      have hded_le : (s.grid p).possible.dedup.length ≤ (s.grid p).possible.length :=
        (List.dedup_sublist _).length_le
      have hsum_lt : totalPossible { s with
          grid := upd s.grid p
            { possible := ord ((s.grid p).possible.dedup.filter
                (fun t => (collapsedNeighborTiles s p).all (tile_rules_ok tiles t)))
              collapsed := false } } < totalPossible s := by
        apply List.sum_lt_sum
        · intro q hq2
          dsimp only
          by_cases hqp : q = p
          · subst hqp
            rw [upd_self]
            exact le_trans (le_of_eq (hlen_ord _)) hfil_le
          · rw [upd_other _ _ _ _ hqp]
        · refine ⟨p, (mem_allPositions s.width s.height p).mpr hp, ?_⟩
          dsimp only
          rw [upd_self]
          exact lt_of_le_of_lt (le_of_eq (hlen_ord _)) (lt_of_lt_of_le hfil_lt hded_le)
      have hnb := inBoundsNbrs_length_le s.width s.height p
      have hite_le : (if !((s.grid p).possible.all
          (fun t => (collapsedNeighborTiles s p).all (tile_rules_ok tiles t))) then
            inBoundsNbrs s.width s.height p
          else []).length ≤ 4 := by
        rw [hallf]
        simpa using hnb
      omega

/-- One propagation iteration keeps every queue entry in bounds (only
bounds-checked neighbors are ever enqueued). -/
theorem propagate_step_queue_bounds (tiles : List TileCfg) (ord : List String → List String)
    (s : WFCState) (hqb : ∀ q ∈ s.queue, inBounds s.width s.height q = true) :
    ∀ q ∈ (propagate_step tiles ord s).queue,
      inBounds (propagate_step tiles ord s).width (propagate_step tiles ord s).height q
        = true := by
  rw [(propagate_step_frame tiles ord s).1, (propagate_step_frame tiles ord s).2.1]
  rcases hq : s.queue with - | ⟨p, rest⟩
  · rw [propagate_step_empty tiles ord s hq]
    exact hqb
  · by_cases hc : (s.grid p).collapsed = true
    · rw [propagate_step_collapsed tiles ord s p rest hq hc]
      intro q hmem
      exact hqb q (by rw [hq]; exact List.mem_cons_of_mem p hmem)
    · rw [propagate_step_uncollapsed tiles ord s p rest hq (Bool.eq_false_iff.mpr hc)]
      intro q hmem
      rcases List.mem_append.mp hmem with hin | hin
      · exact hqb q (by rw [hq]; exact List.mem_cons_of_mem p hin)
      · by_cases hco : (!((s.grid p).possible.all
            (fun t => (collapsedNeighborTiles s p).all (tile_rules_ok tiles t)))) = true
        · rw [if_pos hco] at hin
          exact mem_inBoundsNbrs_bounds hin
        · rw [if_neg hco] at hin
          cases hin

/-- Iterated propagation preserves dimensions, counters and collapsed
flags. -/
theorem propagateN_frame (tiles : List TileCfg) (ord : List String → List String) :
    ∀ (n : Nat) (s : WFCState),
      (propagateN tiles ord n s).width = s.width
      ∧ (propagateN tiles ord n s).height = s.height
      ∧ (propagateN tiles ord n s).btCount = s.btCount
      ∧ (propagateN tiles ord n s).rngIdx = s.rngIdx
      ∧ ∀ q : Pos, ((propagateN tiles ord n s).grid q).collapsed = (s.grid q).collapsed := by
  intro n
  induction n with
  | zero => exact fun s => ⟨rfl, rfl, rfl, rfl, fun q => rfl⟩
  | succ m ih =>
    intro s
    unfold propagateN
    by_cases hqe : s.queue.isEmpty = true
    · rw [if_pos hqe]
      exact ⟨rfl, rfl, rfl, rfl, fun q => rfl⟩
    · rw [if_neg hqe]
      obtain ⟨w1, h1, b1, r1, c1⟩ := ih (propagate_step tiles ord s)
      obtain ⟨w2, h2, b2, r2, c2⟩ := propagate_step_frame tiles ord s
      exact ⟨w1.trans w2, h1.trans h2, b1.trans b2, r1.trans r2,
        fun q => (c1 q).trans (c2 q)⟩

/-- Iterated propagation only removes tiles from possible sets. -/
theorem propagateN_possible_subset (tiles : List TileCfg) (ord : List String → List String)
    (hord : ∀ l : List String, (ord l).Perm l) :
    ∀ (n : Nat) (s : WFCState) (q : Pos) (t : String),
      t ∈ ((propagateN tiles ord n s).grid q).possible → t ∈ (s.grid q).possible := by
  intro n
  induction n with
  | zero => exact fun s q t ht => ht
  | succ m ih =>
    intro s q t ht
    unfold propagateN at ht
    by_cases hqe : s.queue.isEmpty = true
    · rw [if_pos hqe] at ht
      exact ht
    · rw [if_neg hqe] at ht
      exact propagate_step_possible_subset tiles ord hord s q t
        (ih (propagate_step tiles ord s) q t ht)

/-- Fuel equal to the measure drains the propagation queue completely. -/
theorem propagateN_drains (tiles : List TileCfg) (ord : List String → List String)
    (hord : ∀ l : List String, (ord l).Perm l) :
    ∀ (n : Nat) (s : WFCState), pmeasure s ≤ n →
      (∀ q ∈ s.queue, inBounds s.width s.height q = true) →
      (propagateN tiles ord n s).queue = [] := by
  intro n
  induction n with
  | zero =>
    intro s hm hb
    have hzero : s.queue.length = 0 := by
      have : pmeasure s = 4 * totalPossible s + s.queue.length := rfl
      omega
    exact List.length_eq_zero.mp hzero
  | succ m ih =>
    intro s hm hb
    unfold propagateN
    by_cases hqe : s.queue.isEmpty = true
    · rw [if_pos hqe]
      exact List.isEmpty_iff.mp hqe
    · rw [if_neg hqe]
      rcases hq : s.queue with - | ⟨p, rest⟩
      · rw [hq] at hqe
        simp at hqe
      · have hp : inBounds s.width s.height p = true :=
          hb p (by rw [hq]; exact List.mem_cons_self p rest)
        have hlt := pmeasure_step_lt tiles ord hord s p rest hq hp
        exact ih (propagate_step tiles ord s) (by omega)
          (propagate_step_queue_bounds tiles ord s hb)

/-- C7: `propagate` terminates on every input whose queue holds in-bounds
coordinates (the only queues the solver builds): running the queue loop for
`pmeasure` steps — a bound computed from the state — fully drains it;
possible sets only ever shrink (tiles are removed, never added) at every
iteration count; and the step re-enqueues neighbors only when the processed
cell's possible set actually lost a tile. -/
theorem c7_propagate_terminates (tiles : List TileCfg) (ord : List String → List String)
    (s : WFCState) (hord : ∀ l : List String, (ord l).Perm l)
    (hqb : ∀ q ∈ s.queue, inBounds s.width s.height q = true) :
    (propagate tiles ord s).queue = []
    ∧ (∀ (n : Nat) (q : Pos) (t : String),
        t ∈ ((propagateN tiles ord n s).grid q).possible → t ∈ (s.grid q).possible)
    ∧ (∀ (p : Pos) (rest : List Pos), s.queue = p :: rest →
        (propagate_step tiles ord s).queue ≠ rest →
        ∃ t, t ∈ (s.grid p).possible
          ∧ t ∉ ((propagate_step tiles ord s).grid p).possible) := by
  refine ⟨propagateN_drains tiles ord hord (pmeasure s) s (le_refl _) hqb,
    fun n q t => propagateN_possible_subset tiles ord hord n s q t, ?_⟩
  intro p rest hq hne
  by_cases hc : (s.grid p).collapsed = true
  · exfalso
    apply hne
    rw [propagate_step_collapsed tiles ord s p rest hq hc]
  · have hcf : (s.grid p).collapsed = false := Bool.eq_false_iff.mpr hc
    rw [propagate_step_uncollapsed tiles ord s p rest hq hcf] at hne ⊢
    by_cases hall : (s.grid p).possible.all
        (fun t => (collapsedNeighborTiles s p).all (tile_rules_ok tiles t)) = true
    · exfalso
      apply hne
      show rest ++ _ = rest
      rw [hall]
      simp
    · have hallf : (s.grid p).possible.all
          (fun t => (collapsedNeighborTiles s p).all (tile_rules_ok tiles t)) = false :=
        Bool.eq_false_iff.mpr hall
      obtain ⟨t0, ht0, ht0f⟩ := List.all_eq_false.mp hallf
      refine ⟨t0, ht0, ?_⟩
      intro hmem
      have h1 : t0 ∈ ord ((s.grid p).possible.dedup.filter
          (fun t => (collapsedNeighborTiles s p).all (tile_rules_ok tiles t))) := by
        simp only [upd_self] at hmem
        exact hmem
      have h2 := (hord _).mem_iff.mp h1
      have h3 := (List.mem_filter.mp h2).2
      exact ht0f h3

/-- Witness for `c7_propagate_terminates` on a concrete 2×1 state with a
queued open cell. -/
theorem c7_witness :
    (propagate [grassAdjTile, waterTile] ord_id stepState).queue = [] :=
  (c7_propagate_terminates [grassAdjTile, waterTile] ord_id stepState
    (fun l => List.Perm.refl l)
    (fun q hmem => by
      rw [show stepState.queue = [((1 : Int), (0 : Int))] from rfl] at hmem
      rcases List.mem_cons.mp hmem with hh | hh
      · rw [hh]
        rfl
      · cases hh)).1

/-- Explicit success form of `collapse_cell` on a nonempty cell. -/
theorem collapse_cell_some_eq (tiles : List TileCfg) (elevF tempF : Pos → Rat)
    (rng : Nat → Rat) (s : WFCState) (p : Pos) (hne : (s.grid p).possible ≠ []) :
    collapse_cell tiles elevF tempF rng s p = some { s with
      grid := upd s.grid p
        { possible := [chosen_tile tiles elevF tempF rng s p], collapsed := true }
      queue := s.queue ++ inBoundsNbrs s.width s.height p
      rngIdx := s.rngIdx + 1 } := by
  unfold collapse_cell
  rw [List.isEmpty_eq_false.mpr hne]
  simp only [Bool.false_eq_true, if_false]
  have hwne : cellWeights tiles (s.grid p).possible (elevF p) (tempF p) ≠ [] := by
    unfold cellWeights
    intro hmap
    exact hne (List.map_eq_nil_iff.mp hmap)
  have hpos : 0 < (cellWeights tiles (s.grid p).possible (elevF p) (tempF p)).sum :=
    sum_pos_of_ge_centiweight _ (cellWeights_ge tiles _ _ _) hwne
  rw [if_neg (fun hz => absurd (hz ▸ hpos) (lt_irrefl 0))]

/-- A fresh solver satisfies the collapsed-singleton invariant vacuously. -/
theorem wfc_init_inv (tiles : List TileCfg) (w h : Int) (ri : Nat) :
    CollapsedInv (wfc_init tiles w h ri) :=
  fun _ hcol => absurd hcol Bool.false_ne_true

/-- A successful collapse preserves the collapsed-singleton invariant. -/
theorem collapse_cell_inv (tiles : List TileCfg) (elevF tempF : Pos → Rat)
    (rng : Nat → Rat) (s s2 : WFCState) (p : Pos)
    (hcol : collapse_cell tiles elevF tempF rng s p = some s2)
    (hinv : CollapsedInv s) : CollapsedInv s2 := by
  unfold collapse_cell at hcol
  split at hcol
  · cases hcol
  · split at hcol
    · cases hcol
    · cases hcol
      intro q hq
      by_cases hqp : q = p
      · subst hqp
        refine ⟨chosen_tile tiles elevF tempF rng s q, ?_⟩
        simp only [upd_self]
      · simp only [upd_other _ _ _ _ hqp] at hq ⊢
        exact hinv q hq

/-- The contradiction branch preserves the collapsed-singleton invariant. -/
theorem generate_on_contradiction_inv (tiles : List TileCfg) (s : WFCState)
    (hinv : CollapsedInv s) : CollapsedInv (generate_on_contradiction tiles s) := by
  unfold generate_on_contradiction
  split
  · exact wfc_init_inv tiles s.width s.height s.rngIdx
  · exact hinv

/-- One propagation iteration leaves every collapsed cell untouched. -/
theorem propagate_step_grid_at_collapsed (tiles : List TileCfg)
    (ord : List String → List String) (s : WFCState) (q : Pos)
    (hq : (s.grid q).collapsed = true) :
    (propagate_step tiles ord s).grid q = s.grid q := by
  rcases hqu : s.queue with - | ⟨p, rest⟩
  · rw [propagate_step_empty tiles ord s hqu]
  · by_cases hc : (s.grid p).collapsed = true
    · rw [propagate_step_collapsed tiles ord s p rest hqu hc]
    · rw [propagate_step_uncollapsed tiles ord s p rest hqu (Bool.eq_false_iff.mpr hc)]
      have hqp : ¬ q = p := by
        intro hh
        rw [hh] at hq
        exact hc hq
      exact upd_other _ _ _ _ hqp

/-- Iterated propagation leaves every collapsed cell untouched. -/
theorem propagateN_grid_at_collapsed (tiles : List TileCfg)
    (ord : List String → List String) :
    ∀ (n : Nat) (s : WFCState) (q : Pos), (s.grid q).collapsed = true →
      (propagateN tiles ord n s).grid q = s.grid q := by
  intro n
  induction n with
  | zero => exact fun s q _ => rfl
  | succ m ih =>
    intro s q hq
    unfold propagateN
    by_cases hqe : s.queue.isEmpty = true
    · rw [if_pos hqe]
    · rw [if_neg hqe]
      have hstep : ((propagate_step tiles ord s).grid q).collapsed = true := by
        rw [(propagate_step_frame tiles ord s).2.2.2.2 q]
        exact hq
      rw [ih (propagate_step tiles ord s) q hstep,
        propagate_step_grid_at_collapsed tiles ord s q hq]

/-- Iterated propagation preserves the collapsed-singleton invariant. -/
theorem propagateN_inv (tiles : List TileCfg) (ord : List String → List String)
    (n : Nat) (s : WFCState) (hinv : CollapsedInv s) :
    CollapsedInv (propagateN tiles ord n s) := by
  intro q hq
  have hflag : (s.grid q).collapsed = true := by
    rw [← (propagateN_frame tiles ord n s).2.2.2.2 q]
    exact hq
  rw [propagateN_grid_at_collapsed tiles ord n s q hflag]
  exact hinv q hflag

/-- The driver loop preserves the collapsed-singleton invariant. -/
theorem wfc_loop_inv (tiles : List TileCfg) (elevF tempF : Pos → Rat) (rng : Nat → Rat)
    (ord : List String → List String) :
    ∀ (fuel : Nat) (s s' : WFCState),
      wfc_loop tiles elevF tempF rng ord fuel s = some s' →
      CollapsedInv s → CollapsedInv s' := by
  intro fuel
  induction fuel with
  | zero =>
    intro s s' hrun
    cases hrun
  | succ m ih =>
    intro s s' hrun hinv
    unfold wfc_loop at hrun
    split at hrun
    · cases hrun
      exact hinv
    · rename_i p hmin
      split at hrun
      · rename_i hcol
        exact ih _ s' hrun (generate_on_contradiction_inv tiles s hinv)
      · rename_i s2 hcol
        exact ih _ s' hrun
          (propagateN_inv tiles ord _ s2 (collapse_cell_inv tiles elevF tempF rng s s2 p hcol hinv))

/-- Propagation does not change the uncollapsed-cell count. -/
theorem uncollapsedCount_propagateN (tiles : List TileCfg) (ord : List String → List String)
    (n : Nat) (s : WFCState) :
    uncollapsedCount (propagateN tiles ord n s) = uncollapsedCount s := by
  unfold uncollapsedCount
  obtain ⟨hw, hh, -, -, hflag⟩ := propagateN_frame tiles ord n s
  rw [hw, hh]
  congr 1
  apply List.map_congr_left
  intro q hq
  rw [hflag q]

/-- A successful collapse at a selected cell strictly lowers the
uncollapsed-cell count. -/
theorem uncollapsedCount_collapse_lt (tiles : List TileCfg) (elevF tempF : Pos → Rat)
    (rng : Nat → Rat) (s : WFCState) (p : Pos)
    (hc : (s.grid p).collapsed = false) (hmem : p ∈ allPositions s.width s.height) :
    uncollapsedCount { s with
      grid := upd s.grid p
        { possible := [chosen_tile tiles elevF tempF rng s p], collapsed := true }
      queue := s.queue ++ inBoundsNbrs s.width s.height p
      rngIdx := s.rngIdx + 1 } < uncollapsedCount s := by
  unfold uncollapsedCount
  apply List.sum_lt_sum
  · intro q hq
    dsimp only
    by_cases hqp : q = p
    · subst hqp
      rw [upd_self]
      simp
    · rw [upd_other _ _ _ _ hqp]
  · refine ⟨p, hmem, ?_⟩
    dsimp only
    rw [upd_self, hc]
    simp

/-- A positive uncollapsed count whenever selection returns a cell. -/
theorem uncollapsedCount_pos_of_min (s : WFCState) (p : Pos)
    (hc : (s.grid p).collapsed = false) (hmem : p ∈ allPositions s.width s.height) :
    1 ≤ uncollapsedCount s := by
  unfold uncollapsedCount
  have h1 : (if (s.grid p).collapsed then 0 else 1) = 1 := by rw [hc]; rfl
  have h2 : (if (s.grid p).collapsed then 0 else 1)
      ∈ (allPositions s.width s.height).map (fun q => if (s.grid q).collapsed then 0 else 1) :=
    List.mem_map_of_mem _ hmem
  have := List.single_le_sum (l := (allPositions s.width s.height).map
    (fun q => if (s.grid q).collapsed then 0 else 1)) (fun x _ => Nat.zero_le x) _ h2
  omega

/-- The full `propagate` drain does not change the uncollapsed count. -/
theorem uncollapsedCount_propagate (tiles : List TileCfg) (ord : List String → List String)
    (s : WFCState) : uncollapsedCount (propagate tiles ord s) = uncollapsedCount s :=
  uncollapsedCount_propagateN tiles ord (pmeasure s) s

/-- Enough fuel makes the driver loop exit normally: each iteration
collapses one of the remaining uncollapsed cells. -/
theorem wfc_loop_total (tiles : List TileCfg) (elevF tempF : Pos → Rat) (rng : Nat → Rat)
    (ord : List String → List String) :
    ∀ (n : Nat) (s : WFCState), uncollapsedCount s ≤ n →
      wfc_loop tiles elevF tempF rng ord (n + 1) s ≠ none := by
  intro n
  induction n with
  | zero =>
    intro s hcnt
    unfold wfc_loop
    split
    · simp
    · rename_i p hmin
      exfalso
      obtain ⟨hc, -, hmem⟩ := get_min_entropy_cell_spec s p hmin
      have := uncollapsedCount_pos_of_min s p hc hmem
      omega
  | succ m ih =>
    intro s hcnt
    unfold wfc_loop
    split
    · simp
    · rename_i p hmin
      obtain ⟨hc, hne, hmem⟩ := get_min_entropy_cell_spec s p hmin
      rw [collapse_cell_some_eq tiles elevF tempF rng s p hne]
      show wfc_loop tiles elevF tempF rng ord (m + 1) (propagate tiles ord _) ≠ none
      apply ih
      rw [uncollapsedCount_propagate]
      have := uncollapsedCount_collapse_lt tiles elevF tempF rng s p hc hmem
      omega

/-- C5: with fuel one more than the number of cells, `generate`'s driver
loop always exits normally (the contradiction branch never fires, each
iteration collapses a fresh cell); and in any state the loop returns, every
cell is either collapsed holding exactly one tile — which the final map
build emits — or uncollapsed and emitted as the default `'grass'`: the
returned map is dense, with no unresolved cell. -/
theorem c5_generate_returns_dense_map (tiles : List TileCfg) (w h : Int)
    (elevF tempF : Pos → Rat) (rng : Nat → Rat) (ord : List String → List String) :
    wfc_generate tiles w h elevF tempF rng ord
        (uncollapsedCount (wfc_init tiles w h 0) + 1) ≠ none
    ∧ (∀ (fuel : Nat) (s' : WFCState),
        wfc_generate tiles w h elevF tempF rng ord fuel = some s' →
        ∀ p : Pos,
          ((s'.grid p).collapsed = true
            ∧ ∃ t, (s'.grid p).possible = [t] ∧ build_final_terrain s' p = t)
          ∨ ((s'.grid p).collapsed = false ∧ build_final_terrain s' p = "grass")) := by
  constructor
  · exact wfc_loop_total tiles elevF tempF rng ord
      (uncollapsedCount (wfc_init tiles w h 0)) (wfc_init tiles w h 0) (le_refl _)
  · intro fuel s' hrun p
    have hinv : CollapsedInv s' :=
      wfc_loop_inv tiles elevF tempF rng ord fuel (wfc_init tiles w h 0) s' hrun
        (wfc_init_inv tiles w h 0)
    cases hcol : (s'.grid p).collapsed with
    | true =>
      obtain ⟨t, ht⟩ := hinv p hcol
      refine Or.inl ⟨rfl, t, ht, ?_⟩
      unfold build_final_terrain
      rw [hcol, ht]
      rfl
    | false =>
      refine Or.inr ⟨rfl, ?_⟩
      unfold build_final_terrain
      rw [hcol]
      rfl

/-- Witness for `c5_generate_returns_dense_map`: the 1×1 single-tile run
exits normally and its only cell is collapsed to `grass`. -/
theorem c5_witness :
    wfc_generate [grassTile] 1 1 elev5 temp30 (constRng (1 / 10)) ord_id
        (uncollapsedCount (wfc_init [grassTile] 1 1 0) + 1) ≠ none
    ∧ (((((wfc_generate [grassTile] 1 1 elev5 temp30 (constRng (1 / 10)) ord_id 2).getD
          (wfc_init [grassTile] 1 1 0)).grid (0, 0)).collapsed = true
        ∧ ∃ t, (((wfc_generate [grassTile] 1 1 elev5 temp30 (constRng (1 / 10)) ord_id 2).getD
            (wfc_init [grassTile] 1 1 0)).grid (0, 0)).possible = [t]
          ∧ build_final_terrain ((wfc_generate [grassTile] 1 1 elev5 temp30 (constRng (1 / 10))
              ord_id 2).getD (wfc_init [grassTile] 1 1 0)) (0, 0) = t)
      ∨ ((((wfc_generate [grassTile] 1 1 elev5 temp30 (constRng (1 / 10)) ord_id 2).getD
          (wfc_init [grassTile] 1 1 0)).grid (0, 0)).collapsed = false
        ∧ build_final_terrain ((wfc_generate [grassTile] 1 1 elev5 temp30 (constRng (1 / 10))
            ord_id 2).getD (wfc_init [grassTile] 1 1 0)) (0, 0) = "grass")) := by
  have hrun : wfc_generate [grassTile] 1 1 elev5 temp30 (constRng (1 / 10)) ord_id 2
      = some ((wfc_generate [grassTile] 1 1 elev5 temp30 (constRng (1 / 10)) ord_id 2).getD
        (wfc_init [grassTile] 1 1 0)) := by
    with_unfolding_all rfl
  exact ⟨(c5_generate_returns_dense_map [grassTile] 1 1 elev5 temp30 (constRng (1 / 10))
      ord_id).1,
    (c5_generate_returns_dense_map [grassTile] 1 1 elev5 temp30 (constRng (1 / 10)) ord_id).2
      2 _ hrun (0, 0)⟩

/-- A permutation of a list leaves `List.all` unchanged. -/
theorem perm_all_eq {α : Type} {l l' : List α} (h : l.Perm l') (f : α → Bool) :
    l.all f = l'.all f := by
  cases hl : l.all f
  · rw [List.all_eq_false] at hl
    obtain ⟨x, hx, hfx⟩ := hl
    symm
    rw [List.all_eq_false]
    exact ⟨x, h.mem_iff.mp hx, hfx⟩
  · rw [List.all_eq_true] at hl
    symm
    rw [List.all_eq_true]
    exact fun x hx => hl x (h.mem_iff.mpr hx)

/-- The collapsed-neighbor tile list read by `propagate` is determined by
the dimensions, the collapsed flags, and the contents of collapsed cells. -/
theorem collapsedNeighborTiles_congr (s s' : WFCState) (p : Pos)
    (hw : s.width = s'.width) (hh : s.height = s'.height)
    (hcond : ∀ q : Pos, (s.grid q).collapsed = (s'.grid q).collapsed
      ∧ ((s.grid q).collapsed = true → (s.grid q).possible = (s'.grid q).possible)) :
    collapsedNeighborTiles s p = collapsedNeighborTiles s' p := by
  unfold collapsedNeighborTiles
  rw [← hw, ← hh]
  refine List.filterMap_congr (fun q _ => ?_)
  show (if (s.grid q).collapsed then some ((s.grid q).possible.headD "") else none)
    = (if (s'.grid q).collapsed then some ((s'.grid q).possible.headD "") else none)
  obtain ⟨hcq, heq⟩ := hcond q
  rw [← hcq]
  by_cases hcv : (s.grid q).collapsed = true
  · rw [if_pos hcv, if_pos hcv, heq hcv]
  · rw [if_neg hcv, if_neg hcv]

/-- One propagation iteration preserves alignment between two runs whose
`list(set(...))` oracles are both permutation-valid: the popped coordinate,
the skip decision, the discard test against collapsed neighbors, and the
re-enqueue decision all coincide, and the stored candidate lists stay
permutation-related. -/
theorem propagate_step_aligned (tiles : List TileCfg)
    (ord ord' : List String → List String)
    (hord : ∀ l : List String, (ord l).Perm l) (hord' : ∀ l : List String, (ord' l).Perm l)
    (s s' : WFCState) (hrel : OrdAligned s s') :
    OrdAligned (propagate_step tiles ord s) (propagate_step tiles ord' s') := by
  obtain ⟨hw, hh, hq, hb, hr, hg⟩ := hrel
  rcases hqs : s.queue with - | ⟨p, rest⟩
  · have hqs' : s'.queue = [] := hq ▸ hqs
    rw [propagate_step_empty tiles ord s hqs, propagate_step_empty tiles ord' s' hqs']
    exact ⟨hw, hh, hq, hb, hr, hg⟩
  · have hqs' : s'.queue = p :: rest := hq ▸ hqs
    have hcngr : collapsedNeighborTiles s p = collapsedNeighborTiles s' p :=
      collapsedNeighborTiles_congr s s' p hw hh (fun q => ⟨(hg q).1, (hg q).2.2⟩)
    by_cases hc : (s.grid p).collapsed = true
    · have hc' : (s'.grid p).collapsed = true := (hg p).1 ▸ hc
      rw [propagate_step_collapsed tiles ord s p rest hqs hc,
        propagate_step_collapsed tiles ord' s' p rest hqs' hc']
      exact ⟨hw, hh, rfl, hb, hr, hg⟩
    · have hcf : (s.grid p).collapsed = false := by
        cases hcv : (s.grid p).collapsed
        · rfl
        · exact absurd hcv hc
      have hcf' : (s'.grid p).collapsed = false := (hg p).1 ▸ hcf
      rw [propagate_step_uncollapsed tiles ord s p rest hqs hcf,
        propagate_step_uncollapsed tiles ord' s' p rest hqs' hcf']
      have hall : ((s.grid p).possible.all
            (fun t => (collapsedNeighborTiles s p).all (tile_rules_ok tiles t)))
          = ((s'.grid p).possible.all
            (fun t => (collapsedNeighborTiles s' p).all (tile_rules_ok tiles t))) := by
        rw [hcngr]
        exact perm_all_eq (hg p).2.1 _
      have hperm : (ord ((s.grid p).possible.dedup.filter
            (fun t => (collapsedNeighborTiles s p).all (tile_rules_ok tiles t)))).Perm
          (ord' ((s'.grid p).possible.dedup.filter
            (fun t => (collapsedNeighborTiles s' p).all (tile_rules_ok tiles t)))) := by
        refine ((hord _).trans ?_).trans (hord' _).symm
        rw [hcngr]
        exact List.Perm.filter _ (List.Perm.dedup (hg p).2.1)
      refine ⟨hw, hh, ?_, hb, hr, ?_⟩
      · show rest ++ (if !((s.grid p).possible.all
              (fun t => (collapsedNeighborTiles s p).all (tile_rules_ok tiles t))) then
            inBoundsNbrs s.width s.height p
          else [])
          = rest ++ (if !((s'.grid p).possible.all
              (fun t => (collapsedNeighborTiles s' p).all (tile_rules_ok tiles t))) then
            inBoundsNbrs s'.width s'.height p
          else [])
        rw [hall, hw, hh]
      · intro q
        by_cases hpq : q = p
        · subst hpq
          refine ⟨?_, ?_, ?_⟩
          · simp only [upd_self]
          · simp only [upd_self]
            exact hperm
          · simp only [upd_self]
            intro hcontra
            exact absurd hcontra (by decide)
        · refine ⟨?_, ?_, ?_⟩
          · simp only [upd, if_neg hpq]
            exact (hg q).1
          · simp only [upd, if_neg hpq]
            exact (hg q).2.1
          · simp only [upd, if_neg hpq]
            exact (hg q).2.2

/-- C8 (amended): the output of a run is determined by the configuration,
the dimensions, the RNG stream AND the `set` iteration order; the RNG alone
does not fix it.  What IS order-invariant is the candidate-set content:
for any two permutation-valid set-iteration oracles, propagation started
from aligned states keeps the two runs `OrdAligned` — equal dimensions,
queue, counters and collapsed flags, equal contents at collapsed cells, and
permutation-related (but not necessarily equal) stored candidate lists at
open cells.  The residual order difference is real and reaches the output,
because `collapse_cell`'s weighted draw indexes into the stored list (see
this claim's counterexample); moreover `WorldGenerator.__init__`
(lines 8-13) accepts no seed and never seeds `np.random`, so the premise of
a "fixed random seed" is not even expressible against the code. -/
theorem c8_propagation_aligned_modulo_set_order (tiles : List TileCfg)
    (ord ord' : List String → List String)
    (hord : ∀ l : List String, (ord l).Perm l) (hord' : ∀ l : List String, (ord' l).Perm l)
    (n : Nat) (s s' : WFCState) (hrel : OrdAligned s s') :
    OrdAligned (propagateN tiles ord n s) (propagateN tiles ord' n s') := by
  induction n generalizing s s' with
  | zero => exact hrel
  | succ m ih =>
    obtain ⟨hw, hh, hq, hb, hr, hg⟩ := hrel
    unfold propagateN
    rw [← hq]
    by_cases hqe : s.queue.isEmpty = true
    · rw [if_pos hqe, if_pos hqe]
      exact ⟨hw, hh, hq, hb, hr, hg⟩
    · rw [if_neg hqe, if_neg hqe]
      exact ih _ _ (propagate_step_aligned tiles ord ord' hord hord' s s'
        ⟨hw, hh, hq, hb, hr, hg⟩)

/-- Witness for `c8_propagation_aligned_modulo_set_order`: the identity and
reversing oracles are both permutation-valid, and a two-step queue drain
from the concrete aligned pair `(stepState, stepState)` keeps the two runs
aligned. -/
theorem c8_ordalign_witness :
    OrdAligned (propagateN cfgC8.tiles ord_id 2 stepState)
      (propagateN cfgC8.tiles ord_rev 2 stepState) :=
  c8_propagation_aligned_modulo_set_order cfgC8.tiles ord_id ord_rev
    (fun l => List.Perm.refl l) (fun l => List.reverse_perm l)
    2 stepState stepState
    ⟨rfl, rfl, rfl, rfl, rfl, fun _ => ⟨rfl, List.Perm.refl _, fun _ => rfl⟩⟩

/-- C8 counterexample: two full executions of `generate_full_world` with the
same configuration, the same 2×1 dimensions and the IDENTICAL random stream
(every uniform draw is `0.1`) — differing only in the iteration order the
`list(set(...))` in `propagate` happens to produce, here the identity order
versus the reversed order, both valid set orders — print different terrain
maps: `[["water", "water"]]` versus `[["water", "B"]]`.  First run: cell
`(0,0)` collapses to `"water"`, propagation rewrites `(1,0)`'s candidates
in oracle order without removing anything, and the next draw takes index 0
of the stored list.  CPython's set order for strings varies across
interpreter runs (hash randomization), and the generator takes no seed that
could pin it, so seed-identical independent executions are not guaranteed
to agree. -/
theorem c8_fixed_stream_runs_diverge_with_set_order :
    world_out cfgC8 2 1 noiseZero edtZero expOne (constRng (1 / 10)) ord_id idShuffle idShuffle 5
      = some { terrain := [["water", "water"]], rivers := [] }
    ∧ world_out cfgC8 2 1 noiseZero edtZero expOne (constRng (1 / 10)) ord_rev idShuffle idShuffle 5
      = some { terrain := [["water", "B"]], rivers := [] }
    ∧ ((some { terrain := [["water", "water"]], rivers := [] } : Option WorldOut)
      ≠ some { terrain := [["water", "B"]], rivers := [] })
    ∧ (∀ l : List String, (ord_id l).Perm l)
    ∧ (∀ l : List String, (ord_rev l).Perm l) := by
  refine ⟨?_, ?_, ?_, fun l => List.Perm.refl l, fun l => List.reverse_perm l⟩
  · with_unfolding_all rfl
  · with_unfolding_all rfl
  · intro hctr
    exact absurd (congrArg (fun o => (o.getD { terrain := [], rivers := [] }).terrain) hctr)
      (by with_unfolding_all decide)

end NeoCore
